import Mathlib

/-!
Verification of the ObjectiveAI langchain adapter: the outbound message
encoder and inbound response decoder of the chat-model module, and the
ranked-output parser family of the output-parser module.

The development embeds the TypeScript source shallowly:

* JavaScript JSON values are modelled by the inductive type `Json`, with
  numbers as rationals (every JavaScript number is a finite binary fraction,
  hence an exact rational).
* The external builtins `JSON.stringify` and `JSON.parse` are modelled by an
  executable serializer (`stringifyChars`, `serializeNumChars`,
  `serializeStrChars`) and an executable recursive-descent parser (`jparse`,
  with explicit fuel to make it structurally recursive).  The serializer
  prints numbers in plain decimal form and escapes control characters with
  4-hex-digit unicode escapes; the parser accepts standard JSON.
* The encoder, decoder and parser-family functions are translated
  definition-by-definition from the source.
-/

/-! ## Decimal digits -/

/-- The decimal digit character of a value below ten. -/
def digitChar : Nat → Char
  | 0 => '0'
  | 1 => '1'
  | 2 => '2'
  | 3 => '3'
  | 4 => '4'
  | 5 => '5'
  | 6 => '6'
  | 7 => '7'
  | 8 => '8'
  | 9 => '9'
  | _ => '*'

/-- The numeric value of a decimal digit character. -/
def dval (c : Char) : Nat := c.toNat - 48

/-- Little-endian decimal digits of a natural number (fuel-driven so that the
recursion is structural; adequate whenever the fuel is at least the number). -/
def natToDigitsRev : Nat → Nat → List Char
  | 0, _ => []
  | fuel+1, n => if n = 0 then [] else digitChar (n % 10) :: natToDigitsRev fuel (n / 10)

/-- Standard decimal rendering of a natural number. -/
def natToChars (n : Nat) : List Char := if n = 0 then ['0'] else (natToDigitsRev n n).reverse

/-- Value of a big-endian string of decimal digit characters. -/
def digitsToNat (ds : List Char) : Nat := ds.foldl (fun a c => a * 10 + dval c) 0

/-- Lowercase hexadecimal digit character of a value below sixteen. -/
def hexDigitChar : Nat → Char
  | 0 => '0'
  | 1 => '1'
  | 2 => '2'
  | 3 => '3'
  | 4 => '4'
  | 5 => '5'
  | 6 => '6'
  | 7 => '7'
  | 8 => '8'
  | 9 => '9'
  | 10 => 'a'
  | 11 => 'b'
  | 12 => 'c'
  | 13 => 'd'
  | 14 => 'e'
  | 15 => 'f'
  | _ => '*'

/-- Numeric value of a hexadecimal digit character, if it is one. -/
def hexVal (c : Char) : Option Nat :=
  if c.isDigit then some (c.toNat - 48)
  else if 'a' ≤ c ∧ c ≤ 'f' then some (c.toNat - 87)
  else if 'A' ≤ c ∧ c ≤ 'F' then some (c.toNat - 55)
  else none

/-! ## The JSON data model -/

/-- JavaScript JSON values.  Numbers are rationals; object fields are kept in
insertion order (duplicate keys are resolved last-wins, as `JSON.parse` does,
by `jlookup` below). -/
inductive Json where
  | null
  | bool (b : Bool)
  | num (q : ℚ)
  | str (s : String)
  | arr (elems : List Json)
  | obj (fields : List (String × Json))

/-! ## JSON string serialization (model of the `JSON.stringify` builtin) -/

/-- Escape of one character inside a JSON string literal: quote and backslash
are backslash-escaped, control characters get a 4-hex-digit unicode escape,
everything else is printed verbatim. -/
def escapeChar (c : Char) : List Char :=
  if c = '"' then ['\\', '"']
  else if c = '\\' then ['\\', '\\']
  else if c.toNat < 32 then
    ['\\', 'u', '0', '0', hexDigitChar (c.toNat / 16), hexDigitChar (c.toNat % 16)]
  else [c]

/-- Escape of a character sequence inside a JSON string literal. -/
def escapeList : List Char → List Char
  | [] => []
  | c :: cs => escapeChar c ++ escapeList cs

/-- A JSON string literal: escaped content between double quotes. -/
def serializeStrChars (cs : List Char) : List Char := '"' :: escapeList cs ++ ['"']

/-- A decimal exponent `k` such that `q * 10 ^ k` is an integer, when one
exists below the (always sufficient) bound `q.den`; the least such exponent is
returned, so the printed fraction has no trailing zeros. -/
def decExpOf (q : ℚ) : Option Nat := (List.range (q.den + 1)).find? (fun k => 10 ^ k % q.den = 0)

/-- The integer `q * 10 ^ k`, computed by exact integer division. -/
def mantissaFor (q : ℚ) (k : Nat) : Int := q.num * 10 ^ k / (q.den : Int)

/-- The digits of `n` left-padded with zeros to at least `k + 1` characters,
so that a decimal point can be inserted `k` places from the right. -/
def padDigits (n k : Nat) : List Char :=
  List.replicate (k + 1 - (natToChars n).length) '0' ++ natToChars n

/-- Decimal rendering of a nonnegative rational with a finite decimal
expansion (`IsDec`); the fallback for other rationals is never exercised in
this development. -/
def serializeNumNonneg (q : ℚ) : List Char :=
  match decExpOf q with
  | some k =>
    if k = 0 then natToChars (mantissaFor q 0).toNat
    else
      (padDigits (mantissaFor q k).toNat k).take ((padDigits (mantissaFor q k).toNat k).length - k)
        ++ '.' :: (padDigits (mantissaFor q k).toNat k).drop ((padDigits (mantissaFor q k).toNat k).length - k)
  | none => ['0']

/-- Decimal rendering of a rational number, as `JSON.stringify` prints a
JavaScript number. -/
def serializeNumChars (q : ℚ) : List Char :=
  if q < 0 then '-' :: serializeNumNonneg (-q) else serializeNumNonneg q

mutual

/-- Model of the `JSON.stringify` builtin on a JSON value (compact form, no
added whitespace, exactly as JavaScript prints it). -/
def stringifyChars : Json → List Char
  | .null => ("null").data
  | .bool true => ("true").data
  | .bool false => ("false").data
  | .num q => serializeNumChars q
  | .str s => serializeStrChars s.data
  | .arr xs => '[' :: stringifyList xs ++ [']']
  | .obj fs => '\x7b' :: stringifyFields fs ++ ['\x7d']

/-- Comma-interleaved concatenation of array element renderings. -/
def stringifyList : List Json → List Char
  | [] => []
  | [x] => stringifyChars x
  | x :: y :: rest => stringifyChars x ++ ',' :: stringifyList (y :: rest)

/-- Comma-interleaved concatenation of `"key":value` field renderings. -/
def stringifyFields : List (String × Json) → List Char
  | [] => []
  | [(k, v)] => serializeStrChars k.data ++ ':' :: stringifyChars v
  | (k, v) :: y :: rest =>
    (serializeStrChars k.data ++ ':' :: stringifyChars v) ++ ',' :: stringifyFields (y :: rest)

end

/-- Model of the `JSON.stringify` builtin, producing a string. -/
def stringifyJson (v : Json) : String := String.mk (stringifyChars v)

/-! ## JSON parsing (model of the `JSON.parse` builtin) -/

/-- JSON insignificant whitespace. -/
def isWsChar (c : Char) : Bool := c = ' ' ∨ c = '\n' ∨ c = '\t' ∨ c = '\r'

/-- Skip insignificant whitespace. -/
def skipWs (cs : List Char) : List Char := cs.dropWhile isWsChar

/-- Parse the remainder of a JSON string literal (after the opening quote),
returning its characters and the rest of the input. -/
def parseStringAux : List Char → Option (List Char × List Char)
  | [] => none
  | c :: rest =>
    if c = '"' then some ([], rest)
    else if c = '\\' then
      match rest with
      | [] => none
      | e :: rest2 =>
        if e = '"' then (parseStringAux rest2).map (fun p => ('"' :: p.1, p.2))
        else if e = '\\' then (parseStringAux rest2).map (fun p => ('\\' :: p.1, p.2))
        else if e = '/' then (parseStringAux rest2).map (fun p => ('/' :: p.1, p.2))
        else if e = 'n' then (parseStringAux rest2).map (fun p => ('\n' :: p.1, p.2))
        else if e = 't' then (parseStringAux rest2).map (fun p => ('\t' :: p.1, p.2))
        else if e = 'r' then (parseStringAux rest2).map (fun p => ('\r' :: p.1, p.2))
        else if e = 'b' then (parseStringAux rest2).map (fun p => ('\x08' :: p.1, p.2))
        else if e = 'f' then (parseStringAux rest2).map (fun p => ('\x0c' :: p.1, p.2))
        else if e = 'u' then
          match rest2 with
          | h1 :: h2 :: h3 :: h4 :: rest3 =>
            match hexVal h1, hexVal h2, hexVal h3, hexVal h4 with
            | some v1, some v2, some v3, some v4 =>
              (parseStringAux rest3).map
                (fun p => (Char.ofNat (((v1 * 16 + v2) * 16 + v3) * 16 + v4) :: p.1, p.2))
            | _, _, _, _ => none
          | _ => none
        else none
    else (parseStringAux rest).map (fun p => (c :: p.1, p.2))

/-- Leading run of decimal digit characters. -/
def digitSpan (cs : List Char) : List Char := cs.takeWhile (·.isDigit)

/-- Input remaining after the leading run of decimal digit characters. -/
def afterDigits (cs : List Char) : List Char := cs.dropWhile (·.isDigit)

/-- The rational `man / den`, scaled by an optional decimal exponent. -/
def applyExp (man : Int) (den : Nat) (negExp : Bool) (e : Nat) : ℚ :=
  if negExp then mkRat man (den * 10 ^ e) else mkRat (man * 10 ^ e) den

/-- Parse an optional JSON exponent part after a mantissa of value
`man / den`. -/
def parseExpAux (man : Int) (den : Nat) (cs : List Char) : Option (ℚ × List Char) :=
  if cs.head? = some 'e' ∨ cs.head? = some 'E' then
    if cs.tail.head? = some '-' then
      if digitSpan cs.tail.tail = [] then none
      else some (applyExp man den true (digitsToNat (digitSpan cs.tail.tail)), afterDigits cs.tail.tail)
    else if cs.tail.head? = some '+' then
      if digitSpan cs.tail.tail = [] then none
      else some (applyExp man den false (digitsToNat (digitSpan cs.tail.tail)), afterDigits cs.tail.tail)
    else
      if digitSpan cs.tail = [] then none
      else some (applyExp man den false (digitsToNat (digitSpan cs.tail)), afterDigits cs.tail)
  else some (mkRat man den, cs)

/-- Parse a JSON number without a leading sign: an integer part, an optional
fraction, an optional exponent. -/
def parseNumberNonneg (cs : List Char) : Option (ℚ × List Char) :=
  if digitSpan cs = [] then none
  else if (afterDigits cs).head? = some '.' then
    if digitSpan (afterDigits cs).tail = [] then none
    else
      parseExpAux
        ((digitsToNat (digitSpan cs) : Int) * 10 ^ (digitSpan (afterDigits cs).tail).length
          + (digitsToNat (digitSpan (afterDigits cs).tail) : Int))
        (10 ^ (digitSpan (afterDigits cs).tail).length) (afterDigits (afterDigits cs).tail)
  else parseExpAux (digitsToNat (digitSpan cs) : Int) 1 (afterDigits cs)

/-- Parse a JSON number, with an optional leading minus sign. -/
def parseNumber (cs : List Char) : Option (ℚ × List Char) :=
  if cs.head? = some '-' then (parseNumberNonneg cs.tail).map (fun p => (-p.1, p.2))
  else parseNumberNonneg cs

mutual

/-- Parse one JSON value (fuel-driven recursive descent; fuel is decremented
on every recursive call, so input length plus a small constant is always
sufficient). -/
def parseValue : Nat → List Char → Option (Json × List Char)
  | 0, _ => none
  | fuel+1, cs =>
    match skipWs cs with
    | [] => none
    | c :: rest =>
      if c = 'n' then
        match rest with
        | 'u' :: 'l' :: 'l' :: r => some (.null, r)
        | _ => none
      else if c = 't' then
        match rest with
        | 'r' :: 'u' :: 'e' :: r => some (.bool true, r)
        | _ => none
      else if c = 'f' then
        match rest with
        | 'a' :: 'l' :: 's' :: 'e' :: r => some (.bool false, r)
        | _ => none
      else if c = '"' then (parseStringAux rest).map (fun p => (.str (String.mk p.1), p.2))
      else if c = '[' then
        match skipWs rest with
        | ']' :: r => some (.arr [], r)
        | cs2 => (parseElems fuel cs2).map (fun p => (.arr p.1, p.2))
      else if c = '\x7b' then
        match skipWs rest with
        | '\x7d' :: r => some (.obj [], r)
        | cs2 => (parseFields fuel cs2).map (fun p => (.obj p.1, p.2))
      else if c = '-' ∨ c.isDigit then (parseNumber (c :: rest)).map (fun p => (.num p.1, p.2))
      else none

/-- Parse the elements of a non-empty JSON array body, up to and including the
closing bracket. -/
def parseElems : Nat → List Char → Option (List Json × List Char)
  | 0, _ => none
  | fuel+1, cs =>
    match parseValue fuel cs with
    | none => none
    | some (v, r) =>
      match skipWs r with
      | ',' :: r2 => (parseElems fuel r2).map (fun p => (v :: p.1, p.2))
      | ']' :: r2 => some ([v], r2)
      | _ => none

/-- Parse the fields of a non-empty JSON object body, up to and including the
closing brace. -/
def parseFields : Nat → List Char → Option (List (String × Json) × List Char)
  | 0, _ => none
  | fuel+1, cs =>
    match skipWs cs with
    | '"' :: rest =>
      match parseStringAux rest with
      | none => none
      | some (key, r) =>
        match skipWs r with
        | ':' :: r2 =>
          match parseValue fuel r2 with
          | none => none
          | some (v, r3) =>
            match skipWs r3 with
            | ',' :: r4 => (parseFields fuel r4).map (fun p => ((String.mk key, v) :: p.1, p.2))
            | '\x7d' :: r4 => some ([(String.mk key, v)], r4)
            | _ => none
        | _ => none
    | _ => none

end

/-- The continuation of `parseFields` after one field's value: a comma
continues with the remaining fields, a closing brace ends the object.  This is
the inner part of the `parseFields` body, split out (non-recursively) for the
round-trip proofs. -/
def parseFieldsStep (fuel : Nat) (key : List Char) :
    Option (Json × List Char) → Option (List (String × Json) × List Char)
  | none => none
  | some (v, r3) =>
    match skipWs r3 with
    | ',' :: r4 => (parseFields fuel r4).map (fun p => ((String.mk key, v) :: p.1, p.2))
    | '\x7d' :: r4 => some ([(String.mk key, v)], r4)
    | _ => none

/-- Model of the `JSON.parse` builtin: parse a whole string as one JSON value,
tolerating surrounding whitespace and rejecting trailing garbage.  The fuel
`length + 4` bounds the recursion depth of any parse that can succeed. -/
def jparse (s : String) : Option Json :=
  match parseValue (s.data.length + 4) s.data with
  | some (v, rest) => if skipWs rest = [] then some v else none
  | none => none

/-- Field lookup in a parsed JSON object, last occurrence winning, as
duplicate keys behave in JavaScript. -/
def jlookup (fields : List (String × Json)) (key : String) : Option Json :=
  ((fields.reverse).find? (fun p => p.1 = key)).map (fun p => p.2)

/-- A rational has a finite decimal expansion (equivalently, is the value of a
JavaScript number printable in plain decimal).  `q.den` is always a sufficient
exponent when any exponent works. -/
def IsDec (q : ℚ) : Prop := 10 ^ q.den % q.den = 0

instance (q : ℚ) : Decidable (IsDec q) :=
  inferInstanceAs (Decidable (10 ^ q.den % q.den = 0))

/-! ## The ranked-output parser family

Embedded from `src/src/output_parser.ts` and `src/unnamed/part_001`.  The
repository carries two variants of `parseObjectiveAIResponse`: one validating
the payload under the key `response` (src/unnamed/part_001, and the first
variant in src/src/output_parser.ts) and one under the key `output`
(src/src/output_parser.ts lines 141-164).  Both are embedded. -/

/-- The error message thrown by `throwNotObjectiveAIResponseError`. -/
def notObjectiveAIResponseMsg : String :=
  "ObjectiveAI Query parser should only be used with an ObjectiveAI Query response."

/-- The parser-family result shape of the `response`-keyed variant. -/
structure QueryObjectiveAIOutput where
  confidence : ℚ
  response : String
deriving DecidableEq

/-- The parser-family result shape of the `output`-keyed variant. -/
structure QueryObjectiveAIOutputKeyed where
  confidence : ℚ
  output : String
deriving DecidableEq

/-- Embedding of `parseObjectiveAIResponse` (the `response`-keyed variant):
JSON-parse the text, require a non-null object with a string `response` field
and a numeric `confidence` field within `[0, 1]`, otherwise throw the
not-an-ObjectiveAI-response error. -/
def parseObjectiveAIResponse (text : String) : Except String QueryObjectiveAIOutput :=
  match jparse text with
  | none => .error notObjectiveAIResponseMsg
  | some (.obj fields) =>
    match jlookup fields ("response"), jlookup fields ("confidence") with
    | some (.str s), some (.num c) =>
      if 0 ≤ c ∧ c ≤ 1 then .ok ⟨c, s⟩ else .error notObjectiveAIResponseMsg
    | _, _ => .error notObjectiveAIResponseMsg
  | some _ => .error notObjectiveAIResponseMsg

/-- Embedding of the `output`-keyed `parseObjectiveAIResponse` variant
(src/src/output_parser.ts lines 141-164): identical except that the payload
is looked up under the key `output`. -/
def parseObjectiveAIResponseOutputKeyed (text : String) :
    Except String QueryObjectiveAIOutputKeyed :=
  match jparse text with
  | none => .error notObjectiveAIResponseMsg
  | some (.obj fields) =>
    match jlookup fields ("output"), jlookup fields ("confidence") with
    | some (.str s), some (.num c) =>
      if 0 ≤ c ∧ c ≤ 1 then .ok ⟨c, s⟩ else .error notObjectiveAIResponseMsg
    | _, _ => .error notObjectiveAIResponseMsg
  | some _ => .error notObjectiveAIResponseMsg

/-- Embedding of `QueryObjectiveAITextOutputParser.parse` (src/unnamed/part_001
lines 48-64): the plain-text parser applies `parseObjectiveAIResponse` with no
further validation (the `Promise.resolve` wrapper is dropped; all parsing here
is synchronous). -/
def queryObjectiveAITextOutputParserParse (text : String) :
    Except String QueryObjectiveAIOutput :=
  parseObjectiveAIResponse text

/-! ## Wire response model and the inbound decoder

Embedded from `src/unnamed/part_000`, `queryCompletionResponseToBaseMessage`
and its inner helper.  Wire types follow the fields the decoder reads. -/

/-- One tool call on a wire response message: `{id, function: {name,
arguments}}`, with the nested `function` object flattened. -/
structure ResponseToolCall where
  id : String
  name : String
  arguments : String
deriving DecidableEq

/-- The message carried by a wire choice. -/
structure ResponseMessage where
  content : Option String
  tool_calls : Option (List ResponseToolCall)
deriving DecidableEq

/-- The per-choice completion metadata block of a wire choice. -/
structure CompletionMetadataInfo where
  id : String
  created : Nat
  model : String
  service_tier : Option String
  system_fingerprint : Option String
  provider : String
deriving DecidableEq

/-- One ranked candidate answer of a wire response. -/
structure Choice where
  finish_reason : String
  index : Nat
  generate_id : String
  confidence_id : String
  confidence_weight : ℚ
  confidence : ℚ
  model : String
  model_index : Nat
  completion_metadata : CompletionMetadataInfo
  message : ResponseMessage
deriving DecidableEq

/-- Optional prompt-token detail block of the wire usage object. -/
structure PromptTokensDetails where
  cached_tokens : Nat
deriving DecidableEq

/-- Optional completion-token detail block of the wire usage object. -/
structure CompletionTokensDetails where
  reasoning_tokens : Nat
deriving DecidableEq

/-- The wire usage object. -/
structure Usage where
  prompt_tokens : Nat
  completion_tokens : Nat
  total_tokens : Nat
  cost : ℚ
  prompt_tokens_details : Option PromptTokensDetails
  completion_tokens_details : Option CompletionTokensDetails
deriving DecidableEq

/-- A wire chat-completion response. -/
structure ChatCompletion where
  id : String
  choices : List Choice
  created : Nat
  model : String
  object : String
  service_tier : Option String
  system_fingerprint : Option String
  usage : Option Usage
deriving DecidableEq

/-- A decoded valid tool call (langchain `ToolCall`, `type: "tool_call"`);
`args` holds the JSON value `JSON.parse` produced from the arguments text. -/
structure DecodedToolCall where
  name : String
  args : Json
  id : String

/-- A decoded invalid tool call (langchain `InvalidToolCall`,
`type: "invalid_tool_call"`), keeping the raw arguments text. -/
structure DecodedInvalidToolCall where
  name : String
  args : String
  id : String
  error : String
deriving DecidableEq

/-- The `response_metadata.choice` block built by the decoder; every field is
optional because the winning choice may be absent. -/
structure ChoiceMetadata where
  finish_reason : Option String
  index : Option Nat
  generate_id : Option String
  confidence_id : Option String
  confidence_weight : Option ℚ
  confidence : Option ℚ
  model : Option String
  model_index : Option Nat
  completion_metadata_id : Option String
  completion_metadata_created : Option Nat
  completion_metadata_model : Option String
  completion_metadata_service_tier : Option String
  completion_metadata_system_fingerprint : Option String
  completion_metadata_provider : Option String
deriving DecidableEq

/-- The `response_metadata` block built by the decoder. -/
structure ResponseMetadata where
  id : String
  choices_count : Nat
  created : Nat
  model : String
  object : String
  service_tier : Option String
  system_fingerprint : Option String
  choice : ChoiceMetadata
deriving DecidableEq

/-- The `input_token_details` block of decoded usage metadata. -/
structure InputTokenDetails where
  cache_read : Nat
deriving DecidableEq

/-- The `output_token_details` block of decoded usage metadata. -/
structure OutputTokenDetails where
  reasoning : Nat
deriving DecidableEq

/-- The decoded `usage_metadata` block. -/
structure UsageMetadata where
  input_tokens : Nat
  output_tokens : Nat
  total_tokens : Nat
  input_token_details : Option InputTokenDetails
  output_token_details : Option OutputTokenDetails
deriving DecidableEq

/-- The decoded answer message (langchain `AIMessage`) built by the decoder. -/
structure AIMessage where
  content : String
  tool_calls : Option (List DecodedToolCall)
  invalid_tool_calls : Option (List DecodedInvalidToolCall)
  id : String
  response_metadata : ResponseMetadata
  usage_metadata : Option UsageMetadata

/-- The loop body of `chatCompletionResponseMessageToBaseMessageToolCalls`:
each wire tool call's `arguments` text is JSON-parsed; success pushes a valid
`DecodedToolCall` whose `args` is the parsed value, failure pushes a
`DecodedInvalidToolCall` keeping the raw text and an error description.  The
original iteration order is preserved within each bucket.  (The source
interpolates the caught exception into the error text; the embedding keeps
the fixed prefix and the raw arguments.) -/
def partitionToolCalls : List ResponseToolCall → List DecodedToolCall × List DecodedInvalidToolCall
  | [] => ([], [])
  | tc :: rest =>
    match jparse tc.arguments with
    | some j => (⟨tc.name, j, tc.id⟩ :: (partitionToolCalls rest).1, (partitionToolCalls rest).2)
    | none =>
      ((partitionToolCalls rest).1, ⟨tc.name, tc.arguments, tc.id,
        "Failed to parse tool call args: " ++ tc.arguments⟩ :: (partitionToolCalls rest).2)

/-- Embedding of `chatCompletionResponseMessageToBaseMessageToolCalls`
(src/unnamed/part_000 lines 285-319): partition the message's tool calls and
return each bucket only when it is non-empty (`undefined`, i.e. `none`,
otherwise). -/
def chatCompletionResponseMessageToBaseMessageToolCalls (message : ResponseMessage) :
    Option (List DecodedToolCall) × Option (List DecodedInvalidToolCall) :=
  let p := partitionToolCalls (message.tool_calls.getD [])
  (if p.1.length > 0 then some p.1 else none,
   if p.2.length > 0 then some p.2 else none)

/-- The characters of the key `confidence`. -/
def confKeyChars : List Char := ['c', 'o', 'n', 'f', 'i', 'd', 'e', 'n', 'c', 'e']

/-- The characters of the key `response`. -/
def respKeyChars : List Char := ['r', 'e', 's', 'p', 'o', 'n', 's', 'e']

/-- The decoder's envelope text: exactly the characters `JSON.stringify`
produces for the object literal of confidence and response — an opening
brace, the quoted key `confidence`, a colon, the number, a comma, the quoted
key `response`, a colon, the string literal, a closing brace. -/
def envelopeChars (q : ℚ) (s : String) : List Char :=
  '\x7b' :: '"' :: confKeyChars ++ '"' :: ':' :: serializeNumChars q
    ++ ',' :: '"' :: respKeyChars ++ '"' :: ':' :: serializeStrChars s.data ++ '\x7d' :: []

/-- The decoder's envelope text as a string. -/
def stringifyEnvelope (q : ℚ) (s : String) : String := String.mk (envelopeChars q s)

/-- The JSON value of the decoder's envelope. -/
def envelopeJson (q : ℚ) (s : String) : Json :=
  .obj [("confidence", .num q), ("response", .str s)]

/-- Embedding of `queryCompletionResponseToBaseMessage` (src/unnamed/part_000
lines 282-380): select `choices[0]` as the winning choice, stringify the
`{confidence, response}` envelope as the visible content (confidence `0` and
content `""` when the choice or its content is absent), partition the winning
choice's tool calls, and copy the remaining response and choice fields into
metadata. -/
def queryCompletionResponseToBaseMessage (completion : ChatCompletion) : AIMessage :=
  let choice : Option Choice := completion.choices.head?
  let tcs : Option (List DecodedToolCall) × Option (List DecodedInvalidToolCall) :=
    match choice with
    | some ch => chatCompletionResponseMessageToBaseMessageToolCalls ch.message
    | none => (none, none)
  { content := stringifyEnvelope ((choice.map Choice.confidence).getD 0)
      ((choice.bind (fun ch => ch.message.content)).getD "")
    tool_calls := tcs.1
    invalid_tool_calls := tcs.2
    id := completion.id
    response_metadata :=
      { id := completion.id
        choices_count := completion.choices.length
        created := completion.created
        model := completion.model
        object := completion.object
        service_tier := completion.service_tier
        system_fingerprint := completion.system_fingerprint
        choice :=
          { finish_reason := choice.map Choice.finish_reason
            index := choice.map Choice.index
            generate_id := choice.map Choice.generate_id
            confidence_id := choice.map Choice.confidence_id
            confidence_weight := choice.map Choice.confidence_weight
            confidence := choice.map Choice.confidence
            model := choice.map Choice.model
            model_index := choice.map Choice.model_index
            completion_metadata_id := choice.map (fun ch => ch.completion_metadata.id)
            completion_metadata_created := choice.map (fun ch => ch.completion_metadata.created)
            completion_metadata_model := choice.map (fun ch => ch.completion_metadata.model)
            completion_metadata_service_tier :=
              choice.bind (fun ch => ch.completion_metadata.service_tier)
            completion_metadata_system_fingerprint :=
              choice.bind (fun ch => ch.completion_metadata.system_fingerprint)
            completion_metadata_provider := choice.map (fun ch => ch.completion_metadata.provider) } }
    usage_metadata := completion.usage.map (fun u =>
      { input_tokens := u.prompt_tokens
        output_tokens := u.completion_tokens
        total_tokens := u.total_tokens
        input_token_details := u.prompt_tokens_details.map (fun d => ⟨d.cached_tokens⟩)
        output_token_details := u.completion_tokens_details.map (fun d => ⟨d.reasoning_tokens⟩) }) }

/-! ## The generic message model and the outbound encoder

Embedded from `src/unnamed/part_000`, `baseMessageToChatCompletionRequestMessage`
and its inner helpers.  The langchain message content is a string or a list of
parts; the part constructors below correspond one-to-one to the runtime shapes
the source's dispatch recognizes, plus a catch-all for unrecognized shapes. -/

/-- Image detail levels accepted by the wire format. -/
inductive ImageDetail where
  | auto
  | low
  | high
deriving DecidableEq

/-- The media kind declared by a typed-source content part. -/
inductive SourceMediaKind where
  | image
  | audio
  | file
deriving DecidableEq

/-- One content part of a generic message, by the runtime shape the source's
dispatch distinguishes: a text part, an `image_url` part whose payload is a
plain string or an object, a typed-source part (`source_type` of `url` or
`base64` with a declared media kind), or an unrecognized shape. -/
inductive ContentPart where
  | text (text : String)
  | imageUrlStr (url : String)
  | imageUrlObj (url : String) (detail : Option String)
  | sourceUrl (kind : SourceMediaKind) (url : String)
  | sourceBase64 (kind : SourceMediaKind) (data : String)
  | unrecognized
deriving DecidableEq

/-- Generic message content: a plain string or a list of parts. -/
inductive MessageContent where
  | str (s : String)
  | parts (ps : List ContentPart)
deriving DecidableEq

/-- A tool call carried by an outbound assistant message (langchain
`ToolCall`); `args` is a string-keyed mapping and `id` is optional (the
source throws on a call without a string id). -/
structure LCToolCall where
  name : String
  args : List (String × Json)
  id : Option String

/-- A generic langchain message, by its `getType()` tag; `generic` is a
`ChatMessage` carrying a custom role label. -/
inductive BaseMessage where
  | human (content : MessageContent) (name : Option String)
  | ai (content : MessageContent) (name : Option String) (tool_calls : List LCToolCall)
  | system (content : MessageContent) (name : Option String)
  | tool (content : MessageContent) (tool_call_id : String)
  | generic (role : String) (content : MessageContent) (name : Option String)

/-- Embedding of `getMessageTypeOrRole`: the message's literal type, except
that a generic `ChatMessage` answers its custom role label. -/
def getMessageTypeOrRole : BaseMessage → String
  | .human _ _ => "human"
  | .ai _ _ _ => "ai"
  | .system _ _ => "system"
  | .tool _ _ => "tool"
  | .generic role _ _ => role

/-- The content of a message, regardless of its constructor. -/
def BaseMessage.contentOf : BaseMessage → MessageContent
  | .human c _ => c
  | .ai c _ _ => c
  | .system c _ => c
  | .tool c _ => c
  | .generic _ c _ => c

/-- The optional author name of a message (`undefined` on tool messages). -/
def BaseMessage.nameOf : BaseMessage → Option String
  | .human _ n => n
  | .ai _ n _ => n
  | .system _ n => n
  | .tool _ _ => none
  | .generic _ _ n => n

/-- The tool calls of a message (empty unless it is an assistant message). -/
def BaseMessage.toolCallsOf : BaseMessage → List LCToolCall
  | .ai _ _ tcs => tcs
  | _ => []

/-- Encoding errors, mirroring the `throw new Error(...)` sites of the
encoder.  `unsupportedAudioContentPart` is the catch-all wrapper the audio
branch rethrows around any inner failure. -/
inductive EncodeError where
  | unsupportedAudioFormat (subtype : String)
  | failedParseAudioDataUrl (data : String)
  | mimeParseFailure (mime : String)
  | unsupportedAudioContentPart (inner : EncodeError)
  | unsupportedHumanContentPart
  | unsupportedNonHumanContentPart
  | unsupportedToolCall
  | unsupportedMessage
deriving DecidableEq

/-- The audio formats of the wire request. -/
inductive AudioFormat where
  | mp3
  | wav
deriving DecidableEq

/-- One part of wire user content. -/
inductive UserContentPart where
  | text (text : String)
  | imageUrl (url : String) (detail : Option ImageDetail)
  | inputAudio (data : String) (format : AudioFormat)
  | file (file_data : String)
deriving DecidableEq

/-- Wire user content: a plain string or a list of parts. -/
inductive UserContent where
  | str (s : String)
  | parts (ps : List UserContentPart)
deriving DecidableEq

/-- Wire simple (text-only) content for non-human roles: a plain string or a
list of text parts. -/
inductive SimpleContent where
  | str (s : String)
  | parts (texts : List String)
deriving DecidableEq

/-- A tool call of a wire request message:
`{type: "function", id, function: {name, arguments}}`, with the nested
`function` object flattened and `arguments` the JSON-serialized mapping. -/
structure RequestToolCall where
  id : String
  name : String
  arguments : String
deriving DecidableEq

/-- A wire chat-completion request message, by role. -/
inductive RequestMessage where
  | user (content : UserContent) (name : Option String)
  | assistant (content : SimpleContent) (name : Option String)
      (tool_calls : Option (List RequestToolCall))
  | developer (content : SimpleContent) (name : Option String)
  | system (content : SimpleContent) (name : Option String)
  | tool (content : SimpleContent) (tool_call_id : String)

/-- The role tag of a wire request message. -/
def RequestMessage.role : RequestMessage → String
  | .user _ _ => "user"
  | .assistant _ _ _ => "assistant"
  | .developer _ _ => "developer"
  | .system _ _ => "system"
  | .tool _ _ => "tool"

/-- Modelled from the spec: the external `parseBase64DataUrl` capability
("decode a base64 data URL and report its MIME type", an opaque collaborator
imported from the message library, not part of this repository).  It accepts
strings of the form `data:<mime>;base64,<payload>` and reports the MIME
type. -/
def parseBase64DataUrl (dataUrl : String) : Option String :=
  if ("data:".data).isPrefixOf dataUrl.data then
    let rest := dataUrl.data.drop 5
    let mime := rest.takeWhile (fun c => ¬ c = ';')
    let after := rest.dropWhile (fun c => ¬ c = ';')
    if (";base64,".data).isPrefixOf after then some (String.mk mime) else none
  else none

/-- Modelled from the spec: the external `parseMimeType` capability
(`parseMimeType(string) -> {type, subtype}`, an opaque collaborator imported
from the message library, not part of this repository).  It splits a MIME
type at the first slash and fails when none is present. -/
def parseMimeType (m : String) : Option (String × String) :=
  let ty := m.data.takeWhile (fun c => ¬ c = '/')
  match m.data.dropWhile (fun c => ¬ c = '/') with
  | '/' :: sub => some (String.mk ty, String.mk sub)
  | _ => none

/-- ASCII lowercasing of a string, as JavaScript `toLowerCase` acts on the
MIME subtypes in question (mapped per character so that it computes in the
kernel). -/
def toLowerStr (s : String) : String := String.mk (s.data.map Char.toLower)

/-- Embedding of the audio branch of `baseMessageContentToUserContent`
(src/unnamed/part_000 lines 117-156): decode the base64 data URL, extract and
lowercase the MIME subtype, accept exactly `mpeg`/`mp3` (as format `mp3`) and
`wav`/`x-wav` (as format `wav`), and fail otherwise; every failure inside the
branch is wrapped in the unsupported-audio-content-part error the source's
`catch` rethrows. -/
def encodeAudioPart (data : String) : Except EncodeError UserContentPart :=
  match parseBase64DataUrl data with
  | some mime =>
    match parseMimeType mime with
    | some (_, sub) =>
      let subtype := toLowerStr sub
      if subtype = "mpeg" ∨ subtype = "mp3" then
        .ok (.inputAudio data .mp3)
      else if subtype = "wav" ∨ subtype = "x-wav" then
        .ok (.inputAudio data .wav)
      else .error (.unsupportedAudioContentPart (.unsupportedAudioFormat subtype))
    | none => .error (.unsupportedAudioContentPart (.mimeParseFailure mime))
  | none => .error (.unsupportedAudioContentPart (.failedParseAudioDataUrl data))

/-- The wire image detail accepted from an `image_url` object: only `auto`,
`low` and `high` survive, anything else becomes `undefined`. -/
def encodeImageDetail : Option String → Option ImageDetail
  | some "auto" => some .auto
  | some "low" => some .low
  | some "high" => some .high
  | _ => none

/-- Embedding of the per-part dispatch of `baseMessageContentToUserContent`
(src/unnamed/part_000 lines 59-172), in the source's branch order: text,
string-valued `image_url`, object-valued `image_url`, url-sourced image,
base64-sourced image, base64-sourced audio, base64-sourced file, and the
unsupported-human-content-part fallthrough. -/
def encodeUserPart : ContentPart → Except EncodeError UserContentPart
  | .text t => .ok (.text t)
  | .imageUrlStr url => .ok (.imageUrl url none)
  | .imageUrlObj url detail => .ok (.imageUrl url (encodeImageDetail detail))
  | .sourceUrl .image url => .ok (.imageUrl url none)
  | .sourceBase64 .image data => .ok (.imageUrl ("data:" ++ data) none)
  | .sourceBase64 .audio data => encodeAudioPart data
  | .sourceBase64 .file data => .ok (.file data)
  | _ => .error .unsupportedHumanContentPart

/-- The part loop of `baseMessageContentToUserContent`: parts are encoded in
order and the first failure aborts the message. -/
def encodeUserParts : List ContentPart → Except EncodeError (List UserContentPart)
  | [] => .ok []
  | p :: rest => do
    let w ← encodeUserPart p
    let ws ← encodeUserParts rest
    .ok (w :: ws)

/-- Embedding of `baseMessageContentToUserContent` (src/unnamed/part_000
lines 53-176): string content passes through, list content is encoded part by
part. -/
def baseMessageContentToUserContent : MessageContent → Except EncodeError UserContent
  | .str s => .ok (.str s)
  | .parts ps => (encodeUserParts ps).map .parts

/-- The part loop of `baseMessageContentToSimpleContent`: only text parts are
accepted, each passed through unchanged; any other part kind throws the
unsupported-non-human-content-part error. -/
def encodeSimpleParts : List ContentPart → Except EncodeError (List String)
  | [] => .ok []
  | .text t :: rest => (encodeSimpleParts rest).map (fun ts => t :: ts)
  | _ :: _ => .error .unsupportedNonHumanContentPart

/-- Embedding of `baseMessageContentToSimpleContent` (src/unnamed/part_000
lines 177-203): string content passes through, list content must be all text
parts. -/
def baseMessageContentToSimpleContent : MessageContent → Except EncodeError SimpleContent
  | .str s => .ok (.str s)
  | .parts ps => (encodeSimpleParts ps).map .parts

/-- The tool-call loop of
`baseMessageToChatCompletionRequestMessageAssistantToolCalls`: each call needs
a string id (the embedding's typed model makes the source's name/args shape
checks always succeed, and `JSON.stringify` of a mapping total, so the
unsupported-tool-call branch fires exactly on a missing id). -/
def encodeToolCallList : List LCToolCall → Except EncodeError (List RequestToolCall)
  | [] => .ok []
  | tc :: rest =>
    match tc.id with
    | some id => (encodeToolCallList rest).map (fun ws => ⟨id, tc.name, stringifyJson (.obj tc.args)⟩ :: ws)
    | none => .error .unsupportedToolCall

/-- Embedding of `baseMessageToChatCompletionRequestMessageAssistantToolCalls`
(src/unnamed/part_000 lines 204-243): encode the calls in order and return
them only when non-empty (`undefined`, i.e. `none`, otherwise). -/
def baseMessageToAssistantToolCalls (message : BaseMessage) :
    Except EncodeError (Option (List RequestToolCall)) :=
  (encodeToolCallList message.toolCallsOf).map
    (fun ws => if ws.length > 0 then some ws else none)

/-- Embedding of `baseMessageToChatCompletionRequestMessage`
(src/unnamed/part_000 lines 42-280): resolve the effective role with
`getMessageTypeOrRole` and branch — `human`/`user` to a user message,
`ai`/`assistant` to an assistant message with optional tool calls,
`developer` and `system` to text-only messages, `tool` (only on an actual
tool message) to a tool message with its `tool_call_id`, and anything else to
the unsupported-message error. -/
def baseMessageToChatCompletionRequestMessage (message : BaseMessage) :
    Except EncodeError RequestMessage :=
  let typeOrRole := getMessageTypeOrRole message
  if typeOrRole = "human" ∨ typeOrRole = "user" then
    (baseMessageContentToUserContent message.contentOf).map
      (fun c => .user c message.nameOf)
  else if typeOrRole = "ai" ∨ typeOrRole = "assistant" then do
    let c ← baseMessageContentToSimpleContent message.contentOf
    let tcs ← baseMessageToAssistantToolCalls message
    .ok (.assistant c message.nameOf tcs)
  else if typeOrRole = "developer" then
    (baseMessageContentToSimpleContent message.contentOf).map
      (fun c => .developer c message.nameOf)
  else if typeOrRole = "system" then
    (baseMessageContentToSimpleContent message.contentOf).map
      (fun c => .system c message.nameOf)
  else if typeOrRole = "tool" then
    match message with
    | .tool content id => (baseMessageContentToSimpleContent content).map (fun c => .tool c id)
    | _ => .error .unsupportedMessage
  else .error .unsupportedMessage

/-! ## Auxiliary predicates and concrete test fixtures -/

/-- Whether a content part is a text part. -/
def ContentPart.isText : ContentPart → Bool
  | .text _ => true
  | _ => false

/-- The texts of the text parts of a part list, in order. -/
def textsOf (ps : List ContentPart) : List String :=
  ps.filterMap (fun p => match p with | .text t => some t | _ => none)

/-- A concrete per-choice completion-metadata block for the test responses. -/
def sampleMeta : CompletionMetadataInfo := ⟨"cmid", 1, "model-x", none, none, "provider-x"⟩

/-- A concrete winning choice carrying confidence one half and content `hi`,
with no tool calls. -/
def sampleChoice : Choice :=
  ⟨"stop", 0, "gid", "cid", 1, mkRat 1 2, "model-x", 0, sampleMeta, ⟨some "hi", none⟩⟩

/-- A concrete wire response whose winning choice is `sampleChoice`. -/
def sampleCompletion : ChatCompletion :=
  ⟨"rid", [sampleChoice], 1, "model-x", "chat.completion", none, none, none⟩

/-- A concrete wire response with an empty choice list. -/
def emptyChoicesCompletion : ChatCompletion :=
  ⟨"rid", [], 1, "model-x", "chat.completion", none, none, none⟩

/-- A concrete winning choice carrying one tool call with valid JSON
arguments and one with truncated JSON arguments. -/
def toolChoice : Choice :=
  ⟨"stop", 0, "gid", "cid", 1, 1, "model-x", 0, sampleMeta,
    ⟨some "", some [⟨"call1", "f", "\x7b\"a\":1\x7d"⟩, ⟨"call2", "g", "\x7b\"a\":"⟩]⟩⟩

/-- A concrete wire response whose winning choice is `toolChoice`. -/
def toolCallCompletion : ChatCompletion :=
  ⟨"rid", [toolChoice], 1, "model-x", "chat.completion", none, none, none⟩

/-- A concrete envelope-array text, the wire shape the specification ascribes
to ranked answers: two well-formed `confidence`/`response` envelopes. -/
def rankedArrayText : String :=
  "[\x7b\"confidence\":0.9,\"response\":\"a\"\x7d,\x7b\"confidence\":0.5,\"response\":\"b\"\x7d]"

/-- The JSON value `rankedArrayText` parses to. -/
def rankedArrayJson : List Json :=
  [.obj [("confidence", .num (mkRat 9 10)), ("response", .str "a")],
   .obj [("confidence", .num (mkRat 5 10)), ("response", .str "b")]]

/-! ## Digit-string lemmas -/

theorem dval_digitChar : ∀ d < 10, dval (digitChar d) = d := by decide

theorem isDigit_digitChar : ∀ d < 10, (digitChar d).isDigit = true := by decide

theorem digitsToNat_nil : digitsToNat [] = 0 := rfl

theorem foldl_digits (l : List Char) : ∀ a : Nat,
    l.foldl (fun a c => a * 10 + dval c) a
      = a * 10 ^ l.length + l.foldl (fun a c => a * 10 + dval c) 0 := by
  induction l with
  | nil => intro a; simp
  | cons c l ih =>
    intro a
    simp only [List.foldl_cons, List.length_cons]
    rw [ih (a * 10 + dval c), ih (0 * 10 + dval c)]
    ring

theorem digitsToNat_append (a b : List Char) :
    digitsToNat (a ++ b) = digitsToNat a * 10 ^ b.length + digitsToNat b := by
  unfold digitsToNat
  rw [List.foldl_append, foldl_digits b]

theorem digitsToNat_replicate_zero (m : Nat) (ds : List Char) :
    digitsToNat (List.replicate m '0' ++ ds) = digitsToNat ds := by
  induction m with
  | zero => simp
  | succ m ih =>
    have : List.replicate (m + 1) '0' ++ ds = '0' :: (List.replicate m '0' ++ ds) := by
      simp [List.replicate]
    rw [this]
    have h0 : digitsToNat ('0' :: (List.replicate m '0' ++ ds))
        = digitsToNat (List.replicate m '0' ++ ds) := by
      simp [digitsToNat, List.foldl_cons, dval]
    rw [h0, ih]

theorem mem_natToDigitsRev_isDigit : ∀ fuel n c, c ∈ natToDigitsRev fuel n → c.isDigit = true := by
  intro fuel
  induction fuel with
  | zero => intro n c h; simp [natToDigitsRev] at h
  | succ fuel ih =>
    intro n c h
    simp only [natToDigitsRev] at h
    by_cases hn : n = 0
    · simp [hn] at h
    · rw [if_neg hn] at h
      rcases List.mem_cons.mp h with h1 | h2
      · subst h1
        exact isDigit_digitChar (n % 10) (Nat.mod_lt n (by norm_num))
      · exact ih (n / 10) c h2

theorem mem_natToChars_isDigit (n : Nat) : ∀ c ∈ natToChars n, c.isDigit = true := by
  intro c h
  unfold natToChars at h
  by_cases hn : n = 0
  · rw [if_pos hn] at h
    simp at h
    subst h
    decide
  · rw [if_neg hn] at h
    exact mem_natToDigitsRev_isDigit n n c (List.mem_reverse.mp h)

theorem natToChars_ne_nil (n : Nat) : natToChars n ≠ [] := by
  unfold natToChars
  by_cases hn : n = 0
  · simp [hn]
  · rw [if_neg hn]
    have hn1 : ∃ m, n = m + 1 := ⟨n - 1, by omega⟩
    obtain ⟨m, rfl⟩ := hn1
    simp only [natToDigitsRev, if_neg hn]
    simp

theorem digitsToNat_natToDigitsRev : ∀ fuel n, n ≤ fuel →
    digitsToNat ((natToDigitsRev fuel n).reverse) = n := by
  intro fuel
  induction fuel with
  | zero =>
    intro n h
    interval_cases n
    simp [natToDigitsRev, digitsToNat]
  | succ fuel ih =>
    intro n h
    by_cases hn : n = 0
    · simp [hn, natToDigitsRev, digitsToNat]
    · simp only [natToDigitsRev, if_neg hn, List.reverse_cons]
      rw [digitsToNat_append]
      have hlt : n / 10 < n := Nat.div_lt_self (Nat.pos_of_ne_zero hn) (by norm_num)
      rw [ih (n / 10) (by omega)]
      have hd : digitsToNat [digitChar (n % 10)] = n % 10 := by
        have := dval_digitChar (n % 10) (Nat.mod_lt n (by norm_num))
        simp [digitsToNat, this]
      rw [hd]
      simp only [List.length_singleton, pow_one]
      omega

theorem digitsToNat_natToChars (n : Nat) : digitsToNat (natToChars n) = n := by
  unfold natToChars
  by_cases hn : n = 0
  · simp [hn, digitsToNat, dval]
  · rw [if_neg hn]
    exact digitsToNat_natToDigitsRev n n le_rfl

/-! ## takeWhile and dropWhile on a prefix of satisfying elements -/

theorem takeWhile_app (p : Char → Bool) (ds rest : List Char) (h1 : ∀ c ∈ ds, p c = true)
    (h2 : ∀ c, rest.head? = some c → p c = false) :
    (ds ++ rest).takeWhile p = ds ∧ (ds ++ rest).dropWhile p = rest := by
  induction ds with
  | nil =>
    cases rest with
    | nil => exact ⟨rfl, rfl⟩
    | cons c cs =>
      have := h2 c rfl
      constructor
      · simp [List.takeWhile, this]
      · simp [List.dropWhile, this]
  | cons d ds ih =>
    have hd : p d = true := h1 d (by simp)
    have ihr := ih (fun c hc => h1 c (by simp [hc]))
    constructor
    · rw [List.cons_append, List.takeWhile_cons, hd]
      simp only [ite_true]
      rw [ihr.1]
    · rw [List.cons_append, List.dropWhile_cons, hd]
      simp only [ite_true]
      exact ihr.2

/-! ## Number round-trip: padding and mantissa lemmas -/

theorem pad_all_digits (n k : Nat) : ∀ c ∈ padDigits n k, c.isDigit = true := by
  intro c hc
  unfold padDigits at hc
  rcases List.mem_append.mp hc with h | h
  · rw [List.eq_of_mem_replicate h]
    decide
  · exact mem_natToChars_isDigit n c h

theorem pad_len (n k : Nat) : k + 1 ≤ (padDigits n k).length := by
  unfold padDigits
  rw [List.length_append, List.length_replicate]
  omega

theorem pad_val (n k : Nat) : digitsToNat (padDigits n k) = n := by
  unfold padDigits
  rw [digitsToNat_replicate_zero, digitsToNat_natToChars]

theorem pad_ne_nil (n k : Nat) : padDigits n k ≠ [] := by
  intro h
  have := pad_len n k
  rw [h] at this
  simp at this

theorem decExpOf_of_isDec (q : ℚ) (h : IsDec q) :
    ∃ k, decExpOf q = some k ∧ 10 ^ k % q.den = 0 := by
  have hmem : q.den ∈ List.range (q.den + 1) := List.mem_range.mpr (Nat.lt_succ_self _)
  have hsome : ((List.range (q.den + 1)).find? (fun k => 10 ^ k % q.den = 0)).isSome := by
    rw [List.find?_isSome]
    exact ⟨q.den, hmem, by simpa using h⟩
  obtain ⟨k, hk⟩ := Option.isSome_iff_exists.mp hsome
  refine ⟨k, hk, ?_⟩
  have := List.find?_some hk
  simpa using this

theorem mantissaFor_nonneg (q : ℚ) (k : Nat) (h : 0 ≤ q) : 0 ≤ mantissaFor q k := by
  unfold mantissaFor
  apply Int.ediv_nonneg
  · exact mul_nonneg (Rat.num_nonneg.mpr h) (pow_nonneg (by norm_num) k)
  · exact_mod_cast Nat.zero_le q.den

theorem mantissaFor_spec (q : ℚ) (k : Nat) (h : 10 ^ k % q.den = 0) :
    ((mantissaFor q k : Int) : ℚ) = q * 10 ^ k := by
  have hdvdN : q.den ∣ 10 ^ k := Nat.dvd_of_mod_eq_zero h
  have hdvd : (q.den : Int) ∣ (10 : Int) ^ k := by
    have := Int.natCast_dvd_natCast.mpr hdvdN
    push_cast at this
    exact this
  have hdvd2 : (q.den : Int) ∣ q.num * 10 ^ k := Dvd.dvd.mul_left hdvd q.num
  obtain ⟨m, hm⟩ := hdvd2
  have hdz : (q.den : Int) ≠ 0 := by
    exact_mod_cast q.den_nz
  have h1 : mantissaFor q k = m := by
    unfold mantissaFor
    rw [hm, Int.mul_ediv_cancel_left _ hdz]
  rw [h1]
  have hqQ : (q.den : ℚ) ≠ 0 := by
    exact_mod_cast q.den_nz
  have hmQ : (q.num : ℚ) * 10 ^ k = (q.den : ℚ) * (m : ℚ) := by
    exact_mod_cast congrArg (fun z : Int => (z : ℚ)) hm
  have hgoal : (m : ℚ) = (q.num : ℚ) / (q.den : ℚ) * 10 ^ k := by
    rw [div_mul_eq_mul_div, eq_div_iff hqQ]
    linear_combination -hmQ
  rw [hgoal, Rat.num_div_den]

theorem digitSpan_app (ds rest : List Char) (h1 : ∀ c ∈ ds, c.isDigit = true)
    (h2 : ∀ c, rest.head? = some c → c.isDigit = false) :
    digitSpan (ds ++ rest) = ds ∧ afterDigits (ds ++ rest) = rest := by
  unfold digitSpan afterDigits
  exact takeWhile_app _ ds rest h1 h2

theorem parseNumberNonneg_serialize (q : ℚ) (rest : List Char) (hd : IsDec q) (hq : 0 ≤ q)
    (hrest : ∀ c, rest.head? = some c → c.isDigit = false ∧ c ≠ '.' ∧ c ≠ 'e' ∧ c ≠ 'E') :
    parseNumberNonneg (serializeNumNonneg q ++ rest) = some (q, rest) := by
  obtain ⟨k, hk, hkp⟩ := decExpOf_of_isDec q hd
  have hrD : ∀ c, rest.head? = some c → c.isDigit = false := fun c hc => (hrest c hc).1
  have hrdot : ¬ rest.head? = some '.' := by
    intro h
    exact absurd rfl (hrest '.' h).2.1
  have hreE : ¬ (rest.head? = some 'e' ∨ rest.head? = some 'E') := by
    rintro (h | h)
    · exact absurd rfl (hrest 'e' h).2.2.1
    · exact absurd rfl (hrest 'E' h).2.2.2
  by_cases hk0 : k = 0
  · subst hk0
    have hser : serializeNumNonneg q = natToChars (mantissaFor q 0).toNat := by
      unfold serializeNumNonneg
      rw [hk]
      simp
    have hDS := digitSpan_app (natToChars (mantissaFor q 0).toNat) rest
      (mem_natToChars_isDigit _) hrD
    rw [hser]
    unfold parseNumberNonneg
    rw [hDS.1, hDS.2, if_neg (natToChars_ne_nil _), if_neg hrdot]
    unfold parseExpAux
    rw [if_neg hreE, digitsToNat_natToChars]
    have hmk : mkRat (((mantissaFor q 0).toNat : Nat) : Int) 1 = q := by
      rw [Rat.mkRat_one, Int.toNat_of_nonneg (mantissaFor_nonneg q 0 hq)]
      have := mantissaFor_spec q 0 hkp
      simpa using this
    rw [hmk]
  · have hser : serializeNumNonneg q
        = (padDigits (mantissaFor q k).toNat k).take ((padDigits (mantissaFor q k).toNat k).length - k)
          ++ '.' :: (padDigits (mantissaFor q k).toNat k).drop
              ((padDigits (mantissaFor q k).toNat k).length - k) := by
      unfold serializeNumNonneg
      rw [hk]
      dsimp only
      rw [if_neg hk0]
    rw [hser]
    have hlen : k + 1 ≤ (padDigits (mantissaFor q k).toNat k).length := pad_len _ _
    have hdig := pad_all_digits (mantissaFor q k).toNat k
    have hpval : digitsToNat (padDigits (mantissaFor q k).toNat k) = (mantissaFor q k).toNat :=
      pad_val _ _
    have hnq : (((mantissaFor q k).toNat : Int) : ℚ) = q * 10 ^ k := by
      rw [Int.toNat_of_nonneg (mantissaFor_nonneg q k hq)]
      exact mantissaFor_spec q k hkp
    generalize hgen : padDigits (mantissaFor q k).toNat k = pd at hlen hdig hpval ⊢
    generalize hngen : (mantissaFor q k).toNat = n at hpval hnq
    have hiplen : (pd.take (pd.length - k)).length = pd.length - k := by
      rw [List.length_take]
      omega
    have hfplen : (pd.drop (pd.length - k)).length = k := by
      rw [List.length_drop]
      omega
    have hipne : pd.take (pd.length - k) ≠ [] := by
      intro h
      rw [h] at hiplen
      simp at hiplen
      omega
    have hfpne : pd.drop (pd.length - k) ≠ [] := by
      intro h
      apply hk0
      rw [h] at hfplen
      simpa using hfplen.symm
    have hipdig : ∀ c ∈ pd.take (pd.length - k), c.isDigit = true := fun c hc =>
      hdig c (List.take_subset _ _ hc)
    have hfpdig : ∀ c ∈ pd.drop (pd.length - k), c.isDigit = true := fun c hc =>
      hdig c (List.drop_subset _ _ hc)
    have hassoc : (pd.take (pd.length - k) ++ '.' :: pd.drop (pd.length - k)) ++ rest
        = pd.take (pd.length - k) ++ '.' :: (pd.drop (pd.length - k) ++ rest) := by
      simp
    rw [hassoc]
    have hDS1 := digitSpan_app (pd.take (pd.length - k)) ('.' :: (pd.drop (pd.length - k) ++ rest))
      hipdig (by
        intro c hc
        simp only [List.head?_cons, Option.some.injEq] at hc
        subst hc
        decide)
    have hDS2 := digitSpan_app (pd.drop (pd.length - k)) rest hfpdig hrD
    unfold parseNumberNonneg
    rw [hDS1.1, hDS1.2, if_neg hipne]
    simp only [List.head?_cons, List.tail_cons]
    rw [if_pos trivial, hDS2.1, hDS2.2, if_neg hfpne]
    unfold parseExpAux
    rw [if_neg hreE]
    have hmk : mkRat ((digitsToNat (pd.take (pd.length - k)) : Int)
          * 10 ^ (pd.drop (pd.length - k)).length + (digitsToNat (pd.drop (pd.length - k)) : Int))
        (10 ^ (pd.drop (pd.length - k)).length) = q := by
      rw [hfplen]
      have hsplit : digitsToNat (pd.take (pd.length - k)) * 10 ^ k
          + digitsToNat (pd.drop (pd.length - k)) = n := by
        have h1 := digitsToNat_append (pd.take (pd.length - k)) (pd.drop (pd.length - k))
        rw [List.take_append_drop, hpval, hfplen] at h1
        omega
      have hcast : ((digitsToNat (pd.take (pd.length - k)) : Int) * 10 ^ k
          + (digitsToNat (pd.drop (pd.length - k)) : Int)) = (n : Int) := by
        rw [← hsplit]
        push_cast
        ring
      rw [hcast, Rat.mkRat_eq_div]
      rw [hnq]
      push_cast
      have h10 : ((10 : ℚ)) ^ k ≠ 0 := by positivity
      field_simp
    rw [hmk]

theorem serializeNumNonneg_head (q : ℚ) :
    ∃ c tl, serializeNumNonneg q = c :: tl ∧ c.isDigit = true := by
  unfold serializeNumNonneg
  cases hk : decExpOf q with
  | none => exact ⟨'0', [], rfl, by decide⟩
  | some k =>
    by_cases hk0 : k = 0
    · subst hk0
      simp only [if_pos rfl]
      rcases hnc : natToChars (mantissaFor q 0).toNat with _ | ⟨c, tl⟩
      · exact absurd hnc (natToChars_ne_nil _)
      · exact ⟨c, tl, rfl, mem_natToChars_isDigit _ c (by rw [hnc]; simp)⟩
    · dsimp only
      rw [if_neg hk0]
      have hlen : k + 1 ≤ (padDigits (mantissaFor q k).toNat k).length := pad_len _ _
      have hdig := pad_all_digits (mantissaFor q k).toNat k
      generalize hgen : padDigits (mantissaFor q k).toNat k = pd at hlen hdig ⊢
      obtain ⟨m, hm⟩ : ∃ m, pd.length - k = m + 1 := ⟨pd.length - k - 1, by omega⟩
      rw [hm]
      rcases hpd : pd with _ | ⟨c, tl⟩
      · rw [hpd] at hlen
        simp at hlen
      · rw [List.take_succ_cons, List.cons_append]
        refine ⟨c, _, rfl, ?_⟩
        exact hdig c (by rw [hpd]; simp)

theorem parseNumber_serialize (q : ℚ) (rest : List Char) (hd : IsDec q)
    (hrest : ∀ c, rest.head? = some c → c.isDigit = false ∧ c ≠ '.' ∧ c ≠ 'e' ∧ c ≠ 'E') :
    parseNumber (serializeNumChars q ++ rest) = some (q, rest) := by
  by_cases hneg : q < 0
  · have hser : serializeNumChars q = '-' :: serializeNumNonneg (-q) := by
      unfold serializeNumChars
      rw [if_pos hneg]
    rw [hser]
    unfold parseNumber
    simp only [List.cons_append, List.head?_cons, List.tail_cons]
    rw [if_pos trivial]
    have hdneg : IsDec (-q) := by
      unfold IsDec at hd ⊢
      rwa [Rat.neg_den]
    rw [parseNumberNonneg_serialize (-q) rest hdneg (by linarith) hrest]
    simp
  · have hser : serializeNumChars q = serializeNumNonneg q := by
      unfold serializeNumChars
      rw [if_neg hneg]
    rw [hser]
    obtain ⟨c, tl, hctl, hcdig⟩ := serializeNumNonneg_head q
    unfold parseNumber
    rw [hctl]
    simp only [List.cons_append, List.head?_cons, List.tail_cons]
    rw [if_neg (by
      intro h
      injection h with h
      subst h
      exact absurd hcdig (by decide))]
    rw [← List.cons_append, ← hctl]
    exact parseNumberNonneg_serialize q rest hd (le_of_not_lt hneg) hrest

/-! ## String-literal round-trip -/

theorem hexVal_hexDigitChar : ∀ v < 16, hexVal (hexDigitChar v) = some v := by decide

theorem parseStringAux_escape (cs rest : List Char) :
    parseStringAux (escapeList cs ++ '"' :: rest) = some (cs, rest) := by
  induction cs with
  | nil =>
    simp only [escapeList, List.nil_append]
    unfold parseStringAux
    rw [if_pos rfl]
  | cons c cs ih =>
    by_cases h1 : c = '"'
    · subst h1
      have he : escapeChar '"' = ['\\', '"'] := rfl
      simp only [escapeList, he, List.cons_append, List.append_assoc, List.nil_append]
      unfold parseStringAux
      simp only [reduceIte]
      rw [ih]
      rfl
    · by_cases h2 : c = '\\'
      · subst h2
        have he : escapeChar '\\' = ['\\', '\\'] := rfl
        simp only [escapeList, he, List.cons_append, List.append_assoc, List.nil_append]
        unfold parseStringAux
        simp only [reduceIte]
        rw [ih]
        rfl
      · by_cases h3 : c.toNat < 32
        · have he : escapeChar c
              = ['\\', 'u', '0', '0', hexDigitChar (c.toNat / 16), hexDigitChar (c.toNat % 16)] := by
            unfold escapeChar
            rw [if_neg h1, if_neg h2, if_pos h3]
          have hv1 : hexVal (hexDigitChar (c.toNat / 16)) = some (c.toNat / 16) :=
            hexVal_hexDigitChar _ (by omega)
          have hv2 : hexVal (hexDigitChar (c.toNat % 16)) = some (c.toNat % 16) :=
            hexVal_hexDigitChar _ (by omega)
          have hv0 : hexVal '0' = some 0 := rfl
          have hchar : Char.ofNat (((0 * 16 + 0) * 16 + c.toNat / 16) * 16 + c.toNat % 16) = c := by
            have hval : ((0 * 16 + 0) * 16 + c.toNat / 16) * 16 + c.toNat % 16 = c.toNat := by
              omega
            rw [hval, Char.ofNat_toNat]
          simp only [escapeList, he, List.cons_append, List.append_assoc, List.nil_append]
          unfold parseStringAux
          simp only [reduceIte]
          rw [hv0, hv1, hv2]
          simp only []
          rw [hchar, ih]
          rfl
        · have he : escapeChar c = [c] := by
            unfold escapeChar
            rw [if_neg h1, if_neg h2, if_neg h3]
          simp only [escapeList, he, List.cons_append, List.append_assoc, List.nil_append]
          unfold parseStringAux
          rw [if_neg h1, if_neg h2, ih]
          rfl

/-! ## parseValue on serialized numbers and strings -/

theorem isDigit_facts (c : Char) (h : c.isDigit = true) :
    isWsChar c = false ∧ ¬c = 'n' ∧ ¬c = 't' ∧ ¬c = 'f' ∧ ¬c = '"' ∧ ¬c = '['
      ∧ ¬c = '\x7b' := by
  refine ⟨?_, ?_, ?_, ?_, ?_, ?_, ?_⟩
  · unfold isWsChar
    by_contra hws
    simp only [Bool.not_eq_false, decide_eq_true_eq] at hws
    rcases hws with h1 | h1 | h1 | h1 <;> (subst h1; exact absurd h (by decide))
  all_goals (intro heq; subst heq; exact absurd h (by decide))

theorem serializeNumChars_head (q : ℚ) :
    ∃ c tl, serializeNumChars q = c :: tl ∧ (c = '-' ∨ c.isDigit = true) := by
  unfold serializeNumChars
  by_cases hneg : q < 0
  · rw [if_pos hneg]
    exact ⟨'-', _, rfl, Or.inl rfl⟩
  · rw [if_neg hneg]
    obtain ⟨c, tl, hc, hcd⟩ := serializeNumNonneg_head q
    exact ⟨c, tl, hc, Or.inr hcd⟩

theorem parseValue_num (fuel : Nat) (q : ℚ) (rest : List Char) (hd : IsDec q)
    (hrest : ∀ c, rest.head? = some c → c.isDigit = false ∧ c ≠ '.' ∧ c ≠ 'e' ∧ c ≠ 'E') :
    parseValue (fuel + 1) (serializeNumChars q ++ rest) = some (.num q, rest) := by
  obtain ⟨c, tl, hc, hcd⟩ := serializeNumChars_head q
  have hnum := parseNumber_serialize q rest hd hrest
  rw [hc] at hnum ⊢
  rw [List.cons_append] at hnum
  have hfacts : isWsChar c = false ∧ ¬c = 'n' ∧ ¬c = 't' ∧ ¬c = 'f' ∧ ¬c = '"' ∧ ¬c = '['
      ∧ ¬c = '\x7b' := by
    rcases hcd with rfl | hdig
    · exact ⟨by decide, by decide, by decide, by decide, by decide, by decide, by decide⟩
    · exact isDigit_facts c hdig
  obtain ⟨hws, h1, h2, h3, h4, h5, h6⟩ := hfacts
  have hskip : skipWs (c :: (tl ++ rest)) = c :: (tl ++ rest) := by
    unfold skipWs
    rw [List.dropWhile_cons]
    simp [hws]
  rw [parseValue.eq_def]
  simp only [List.cons_append]
  rw [hskip]
  split
  · next heq => exact absurd heq (by simp)
  · next c2 rest2 heq =>
    rw [List.cons.injEq] at heq
    obtain ⟨he1, he2⟩ := heq
    subst he1
    subst he2
    rw [if_neg h1, if_neg h2, if_neg h3, if_neg h4, if_neg h5, if_neg h6, if_pos hcd]
    rw [hnum]
    rfl

theorem parseValue_str (fuel : Nat) (s : String) (rest : List Char) :
    parseValue (fuel + 1) (serializeStrChars s.data ++ rest) = some (.str s, rest) := by
  have hescape := parseStringAux_escape s.data rest
  unfold serializeStrChars
  rw [parseValue.eq_def]
  simp only [List.cons_append, List.append_assoc, List.singleton_append, List.nil_append]
  have hskip : skipWs ('"' :: (escapeList s.data ++ '"' :: rest))
      = '"' :: (escapeList s.data ++ '"' :: rest) := by
    unfold skipWs
    rw [List.dropWhile_cons]
    simp [isWsChar]
  rw [hskip]
  split
  · next heq => exact absurd heq (by simp)
  · next c2 rest2 heq =>
    rw [List.cons.injEq] at heq
    obtain ⟨he1, he2⟩ := heq
    subst he1
    subst he2
    rw [if_neg (show ¬('"' : Char) = 'n' by decide), if_neg (show ¬('"' : Char) = 't' by decide),
      if_neg (show ¬('"' : Char) = 'f' by decide), if_pos rfl]
    rw [hescape]
    rfl

/-! ## parseValue on the whole envelope -/

theorem skipWs_cons_of_not_ws (c : Char) (X : List Char) (h : isWsChar c = false) :
    skipWs (c :: X) = c :: X := by
  unfold skipWs
  rw [List.dropWhile_cons]
  simp [h]

theorem parseValue_objStep (fuel : Nat) (cs : List Char) :
    parseValue (fuel + 1) ('\x7b' :: '"' :: cs)
      = (parseFields fuel ('"' :: cs)).map (fun p => (Json.obj p.1, p.2)) := by
  rw [parseValue.eq_def]
  have hsk1 : skipWs ('\x7b' :: '"' :: cs) = '\x7b' :: '"' :: cs :=
    skipWs_cons_of_not_ws _ _ (by decide)
  simp only [hsk1]
  rw [if_neg (show ¬('\x7b' : Char) = 'n' by decide),
    if_neg (show ¬('\x7b' : Char) = 't' by decide),
    if_neg (show ¬('\x7b' : Char) = 'f' by decide),
    if_neg (show ¬('\x7b' : Char) = '"' by decide),
    if_neg (show ¬('\x7b' : Char) = '[' by decide), if_pos trivial,
    skipWs_cons_of_not_ws '"' cs (by decide)]
  split
  · next r heq =>
    rw [List.cons.injEq] at heq
    exact absurd heq.1 (by decide)
  · next cs2 heq => rfl

theorem parseFields_field (fuel : Nat) (key tl : List Char) :
    parseFields (fuel + 1) ('"' :: (escapeList key ++ '"' :: ':' :: tl))
      = parseFieldsStep fuel key (parseValue fuel tl) := by
  rw [parseFields.eq_def]
  have hsk : skipWs ('"' :: (escapeList key ++ '"' :: ':' :: tl))
      = '"' :: (escapeList key ++ '"' :: ':' :: tl) :=
    skipWs_cons_of_not_ws _ _ (by decide)
  simp only [hsk]
  rw [parseStringAux_escape]
  split
  · next heq => exact absurd heq (by simp)
  · next key2 r2 heq =>
    rw [Option.some.injEq, Prod.mk.injEq] at heq
    obtain ⟨he1, he2⟩ := heq
    subst he1
    subst he2
    rw [skipWs_cons_of_not_ws ':' tl (by decide)]
    split
    · next r3 heq =>
      rw [List.cons.injEq] at heq
      obtain ⟨-, he3⟩ := heq
      subst he3
      cases ho : parseValue fuel tl with
      | none => rfl
      | some p =>
        cases p with
        | mk v r4 => rfl
    · next heq => exact absurd rfl (heq tl)

theorem parseFieldsStep_comma (fuel : Nat) (key : List Char) (v : Json) (r4 : List Char) :
    parseFieldsStep fuel key (some (v, ',' :: r4))
      = (parseFields fuel r4).map (fun p => ((String.mk key, v) :: p.1, p.2)) := rfl

theorem parseFieldsStep_brace (fuel : Nat) (key : List Char) (v : Json) (r4 : List Char) :
    parseFieldsStep fuel key (some (v, '\x7d' :: r4)) = some ([(String.mk key, v)], r4) := rfl

theorem escapeList_confKey : escapeList confKeyChars = confKeyChars := by decide

theorem escapeList_respKey : escapeList respKeyChars = respKeyChars := by decide

theorem parseValue_envelope (fuel : Nat) (q : ℚ) (s : String) (rest : List Char) (hd : IsDec q) :
    parseValue (fuel + 4) (envelopeChars q s ++ rest) = some (envelopeJson q s, rest) := by
  have hnorm : envelopeChars q s ++ rest
      = '\x7b' :: '"' :: (confKeyChars ++ '"' :: ':' :: (serializeNumChars q
          ++ ',' :: '"' :: (respKeyChars ++ '"' :: ':' :: (serializeStrChars s.data
          ++ '\x7d' :: rest)))) := by
    simp [envelopeChars]
  rw [hnorm]
  rw [show fuel + 4 = (fuel + 3) + 1 from rfl]
  rw [parseValue_objStep (fuel + 3)]
  rw [show ('"' :: (confKeyChars ++ '"' :: ':' :: (serializeNumChars q
        ++ ',' :: '"' :: (respKeyChars ++ '"' :: ':' :: (serializeStrChars s.data
        ++ '\x7d' :: rest)))) : List Char)
      = '"' :: (escapeList confKeyChars ++ '"' :: ':' :: (serializeNumChars q
        ++ ',' :: '"' :: (respKeyChars ++ '"' :: ':' :: (serializeStrChars s.data
        ++ '\x7d' :: rest)))) from by rw [escapeList_confKey]]
  rw [show fuel + 3 = (fuel + 2) + 1 from rfl]
  rw [parseFields_field (fuel + 2)]
  rw [show fuel + 2 = (fuel + 1) + 1 from rfl]
  rw [parseValue_num (fuel + 1) q
    (',' :: '"' :: (respKeyChars ++ '"' :: ':' :: (serializeStrChars s.data ++ '\x7d' :: rest)))
    hd (by
      intro c hc
      simp only [List.head?_cons, Option.some.injEq] at hc
      subst hc
      exact ⟨by decide, by decide, by decide, by decide⟩)]
  rw [parseFieldsStep_comma]
  rw [show ('"' :: (respKeyChars ++ '"' :: ':' :: (serializeStrChars s.data
        ++ '\x7d' :: rest)) : List Char)
      = '"' :: (escapeList respKeyChars ++ '"' :: ':' :: (serializeStrChars s.data
        ++ '\x7d' :: rest)) from by rw [escapeList_respKey]]
  rw [parseFields_field (fuel + 1)]
  rw [parseValue_str fuel s ('\x7d' :: rest)]
  rw [parseFieldsStep_brace]
  rfl

theorem jparse_envelope (q : ℚ) (s : String) (hd : IsDec q) :
    jparse (stringifyEnvelope q s) = some (envelopeJson q s) := by
  unfold jparse stringifyEnvelope
  have hdata : (String.mk (envelopeChars q s)).data = envelopeChars q s := rfl
  rw [hdata]
  have h := parseValue_envelope ((envelopeChars q s).length) q s [] hd
  rw [List.append_nil] at h
  rw [h]
  rfl

/-! ## The parser family on envelopes and arrays -/

theorem parseObjectiveAIResponse_envelope (q : ℚ) (s : String) (hd : IsDec q) :
    parseObjectiveAIResponse (stringifyEnvelope q s)
      = if 0 ≤ q ∧ q ≤ 1 then .ok ⟨q, s⟩ else .error notObjectiveAIResponseMsg := by
  unfold parseObjectiveAIResponse
  rw [jparse_envelope q s hd]
  rfl

theorem parseObjectiveAIResponseOutputKeyed_envelope (q : ℚ) (s : String) (hd : IsDec q) :
    parseObjectiveAIResponseOutputKeyed (stringifyEnvelope q s)
      = .error notObjectiveAIResponseMsg := by
  unfold parseObjectiveAIResponseOutputKeyed
  rw [jparse_envelope q s hd]
  rfl

theorem parseObjectiveAIResponse_arr (text : String) (xs : List Json)
    (h : jparse text = some (.arr xs)) :
    parseObjectiveAIResponse text = .error notObjectiveAIResponseMsg
      ∧ parseObjectiveAIResponseOutputKeyed text = .error notObjectiveAIResponseMsg := by
  constructor
  · unfold parseObjectiveAIResponse
    rw [h]
  · unfold parseObjectiveAIResponseOutputKeyed
    rw [h]

/-! ## Decoder projections -/

theorem decode_content (completion : ChatCompletion) :
    (queryCompletionResponseToBaseMessage completion).content
      = stringifyEnvelope ((completion.choices.head?.map Choice.confidence).getD 0)
        ((completion.choices.head?.bind (fun ch => ch.message.content)).getD "") := rfl

theorem decode_tool_calls (completion : ChatCompletion) :
    (queryCompletionResponseToBaseMessage completion).tool_calls
      = (match completion.choices.head? with
        | some ch => chatCompletionResponseMessageToBaseMessageToolCalls ch.message
        | none => (none, none)).1 := rfl

theorem decode_invalid_tool_calls (completion : ChatCompletion) :
    (queryCompletionResponseToBaseMessage completion).invalid_tool_calls
      = (match completion.choices.head? with
        | some ch => chatCompletionResponseMessageToBaseMessageToolCalls ch.message
        | none => (none, none)).2 := rfl

theorem bucketsFst (m : ResponseMessage) :
    (chatCompletionResponseMessageToBaseMessageToolCalls m).1
      = (if 0 < (partitionToolCalls (m.tool_calls.getD [])).1.length
          then some (partitionToolCalls (m.tool_calls.getD [])).1 else none) := rfl

theorem bucketsSnd (m : ResponseMessage) :
    (chatCompletionResponseMessageToBaseMessageToolCalls m).2
      = (if 0 < (partitionToolCalls (m.tool_calls.getD [])).2.length
          then some (partitionToolCalls (m.tool_calls.getD [])).2 else none) := rfl

/-! ## Claims -/

/-- C1 counterexample: on a concrete wire response whose winning choice has
confidence one half and content `hi`, the decoder's envelope text carries the
key `response`, not `output`, and the output-keyed parseObjectiveAIResponse
variant rejects it — refuting the claim that the envelope uses the key
`output` and is the shape that variant accepts. -/
theorem c1_envelope_key_counterexample :
    (queryCompletionResponseToBaseMessage sampleCompletion).content
        = "\x7b\"confidence\":0.5,\"response\":\"hi\"\x7d"
      ∧ parseObjectiveAIResponseOutputKeyed
          (queryCompletionResponseToBaseMessage sampleCompletion).content
        = .error notObjectiveAIResponseMsg := ⟨rfl, rfl⟩

/-- C1 (amended): for every wire response, the envelope string the decoder
places as the answer message's visible content is exactly the JSON object
with keys `confidence` and `response` (the winning choice's confidence and
textual content, defaulting to zero and the empty string); for a
decimal-representable confidence this is exactly the shape the
response-keyed parseObjectiveAIResponse accepts (recovering both values when
the confidence is within zero and one), while the output-keyed variant at
src/src/output_parser.ts lines 141-164 rejects it. -/
theorem c1_envelope_key_amended (completion : ChatCompletion) :
    (queryCompletionResponseToBaseMessage completion).content
        = stringifyEnvelope ((completion.choices.head?.map Choice.confidence).getD 0)
          ((completion.choices.head?.bind (fun ch => ch.message.content)).getD "")
      ∧ (IsDec ((completion.choices.head?.map Choice.confidence).getD 0) →
          0 ≤ ((completion.choices.head?.map Choice.confidence).getD 0) →
          ((completion.choices.head?.map Choice.confidence).getD 0) ≤ 1 →
          parseObjectiveAIResponse (queryCompletionResponseToBaseMessage completion).content
            = .ok ⟨(completion.choices.head?.map Choice.confidence).getD 0,
                (completion.choices.head?.bind (fun ch => ch.message.content)).getD ""⟩)
      ∧ (IsDec ((completion.choices.head?.map Choice.confidence).getD 0) →
          parseObjectiveAIResponseOutputKeyed
            (queryCompletionResponseToBaseMessage completion).content
            = .error notObjectiveAIResponseMsg) := by
  refine ⟨decode_content completion, ?_, ?_⟩
  · intro hd h0 h1
    rw [decode_content completion, parseObjectiveAIResponse_envelope _ _ hd, if_pos ⟨h0, h1⟩]
  · intro hd
    rw [decode_content completion, parseObjectiveAIResponseOutputKeyed_envelope _ _ hd]

/-- C1 witness: the amended claim instantiated at a concrete response. -/
theorem c1_envelope_key_amended_witness :
    parseObjectiveAIResponse (queryCompletionResponseToBaseMessage sampleCompletion).content
      = .ok ⟨mkRat 1 2, "hi"⟩ :=
  (c1_envelope_key_amended sampleCompletion).2.1 (by decide) (by decide) (by decide)

/-- C2 counterexample: a well-formed two-element envelope array — the exact
wire shape the claim says the parser family accepts under the asymmetric
failure policy — is rejected outright by the parser. -/
theorem c2_array_counterexample :
    parseObjectiveAIResponse rankedArrayText = .error notObjectiveAIResponseMsg := rfl

/-- C2 (amended): the parser family does not accept an array-of-envelopes
input at all: every text that parses as a JSON array makes both
parseObjectiveAIResponse variants throw the not-an-ObjectiveAI-response
error; only a single envelope object is ever accepted, so no asymmetric
per-element policy exists. -/
theorem c2_array_rejected (text : String) (xs : List Json)
    (h : jparse text = some (.arr xs)) :
    parseObjectiveAIResponse text = .error notObjectiveAIResponseMsg
      ∧ parseObjectiveAIResponseOutputKeyed text = .error notObjectiveAIResponseMsg := by
  constructor
  · unfold parseObjectiveAIResponse
    rw [h]
  · unfold parseObjectiveAIResponseOutputKeyed
    rw [h]

/-- C2 witness: the amended claim instantiated at the concrete two-element
envelope array. -/
theorem c2_array_rejected_witness :
    parseObjectiveAIResponse rankedArrayText = .error notObjectiveAIResponseMsg
      ∧ parseObjectiveAIResponseOutputKeyed rankedArrayText
        = .error notObjectiveAIResponseMsg :=
  c2_array_rejected rankedArrayText rankedArrayJson (by rfl)

/-- C3: round-trip identity — decoding a wire response whose winning choice
carries text s and a decimal-representable confidence within zero and one,
then parsing the resulting content with the text output parser, yields
exactly that confidence and exactly that text. -/
theorem c3_roundtrip (completion : ChatCompletion) (ch : Choice) (s : String)
    (hch : completion.choices.head? = some ch)
    (hs : ch.message.content = some s)
    (hd : IsDec ch.confidence) (h0 : 0 ≤ ch.confidence) (h1 : ch.confidence ≤ 1) :
    queryObjectiveAITextOutputParserParse
        (queryCompletionResponseToBaseMessage completion).content
      = .ok ⟨ch.confidence, s⟩ := by
  unfold queryObjectiveAITextOutputParserParse
  rw [decode_content completion, hch]
  simp only [Option.map_some', Option.getD_some, Option.some_bind, hs]
  rw [parseObjectiveAIResponse_envelope ch.confidence s hd, if_pos ⟨h0, h1⟩]

/-- C3 witness: the round-trip instantiated at a concrete response with
confidence one half and content `hi`. -/
theorem c3_roundtrip_witness :
    queryObjectiveAITextOutputParserParse
        (queryCompletionResponseToBaseMessage sampleCompletion).content
      = .ok ⟨mkRat 1 2, "hi"⟩ :=
  c3_roundtrip sampleCompletion sampleChoice ("hi") rfl rfl (by decide) (by decide) (by decide)

/-- C4: decoding partitions the winning choice's tool calls without loss or
exception: each call whose arguments text parses as JSON becomes a valid
tool call whose args is the parsed value, each call whose arguments text
does not parse becomes an invalid tool call keeping the raw text and an
error description, order is preserved within each bucket, and the bucket
sizes sum to the number of calls. -/
theorem c4_toolcall_partition (completion : ChatCompletion) (ch : Choice)
    (hch : completion.choices.head? = some ch) :
    ((queryCompletionResponseToBaseMessage completion).tool_calls
        = (if 0 < (partitionToolCalls (ch.message.tool_calls.getD [])).1.length
            then some (partitionToolCalls (ch.message.tool_calls.getD [])).1 else none))
      ∧ ((queryCompletionResponseToBaseMessage completion).invalid_tool_calls
        = (if 0 < (partitionToolCalls (ch.message.tool_calls.getD [])).2.length
            then some (partitionToolCalls (ch.message.tool_calls.getD [])).2 else none))
      ∧ ∀ tcs : List ResponseToolCall,
          (partitionToolCalls tcs).1
              = tcs.filterMap (fun tc => (jparse tc.arguments).map
                  (fun j => ⟨tc.name, j, tc.id⟩))
            ∧ (partitionToolCalls tcs).2
              = tcs.filterMap (fun tc => if (jparse tc.arguments).isNone
                  then some ⟨tc.name, tc.arguments, tc.id,
                    "Failed to parse tool call args: " ++ tc.arguments⟩ else none)
            ∧ (partitionToolCalls tcs).1.length + (partitionToolCalls tcs).2.length
              = tcs.length := by
  refine ⟨?_, ?_, ?_⟩
  · rw [decode_tool_calls, hch]
    rfl
  · rw [decode_invalid_tool_calls, hch]
    rfl
  · intro tcs
    induction tcs with
    | nil => exact ⟨rfl, rfl, rfl⟩
    | cons tc rest ih =>
      obtain ⟨ih1, ih2, ih3⟩ := ih
      unfold partitionToolCalls
      cases hj : jparse tc.arguments with
      | some j =>
        refine ⟨?_, ?_, ?_⟩
        · simp only [List.filterMap_cons, hj, Option.map_some']
          rw [ih1]
        · simp only [List.filterMap_cons, hj, Option.isNone_some]
          rw [ih2]
          rfl
        · simp only [List.length_cons]
          omega
      | none =>
        refine ⟨?_, ?_, ?_⟩
        · simp only [List.filterMap_cons, hj, Option.map_none']
          rw [ih1]
        · simp only [List.filterMap_cons, hj, Option.isNone_none]
          rw [ih2]
          rfl
        · simp only [List.length_cons]
          omega

/-- C4 witness: the partition instantiated at a concrete response carrying
one tool call with valid JSON arguments and one with truncated JSON. -/
theorem c4_toolcall_partition_witness :
    (queryCompletionResponseToBaseMessage toolCallCompletion).tool_calls
        = some [⟨"f", .obj [("a", .num 1)], "call1"⟩]
      ∧ (queryCompletionResponseToBaseMessage toolCallCompletion).invalid_tool_calls
        = some [⟨"g", "\x7b\"a\":", "call2", "Failed to parse tool call args: \x7b\"a\":"⟩] := by
  have h := c4_toolcall_partition toolCallCompletion toolChoice rfl
  constructor
  · rw [h.1]
    rfl
  · rw [h.2.1]
    rfl

/-- C6: decoding a wire response with an empty choice list does not fail —
the envelope carries confidence zero and an empty content string, and there
are no tool calls. -/
theorem c6_empty_choices (completion : ChatCompletion) (h : completion.choices = []) :
    (queryCompletionResponseToBaseMessage completion).content
        = "\x7b\"confidence\":0,\"response\":\"\"\x7d"
      ∧ (queryCompletionResponseToBaseMessage completion).tool_calls = none
      ∧ (queryCompletionResponseToBaseMessage completion).invalid_tool_calls = none := by
  refine ⟨?_, ?_, ?_⟩
  · rw [decode_content, h]
    rfl
  · rw [decode_tool_calls, h]
    rfl
  · rw [decode_invalid_tool_calls, h]
    rfl

/-- C6 witness: decoding the concrete empty-choices response. -/
theorem c6_empty_choices_witness :
    (queryCompletionResponseToBaseMessage emptyChoicesCompletion).content
        = "\x7b\"confidence\":0,\"response\":\"\"\x7d"
      ∧ (queryCompletionResponseToBaseMessage emptyChoicesCompletion).tool_calls = none
      ∧ (queryCompletionResponseToBaseMessage emptyChoicesCompletion).invalid_tool_calls
        = none :=
  c6_empty_choices emptyChoicesCompletion rfl

/-- C9: the parser family accepts an envelope with a numeric confidence and
string payload exactly when the confidence lies within the closed interval
from zero to one; outside the interval it throws the
not-an-ObjectiveAI-response error. -/
theorem c9_confidence_range (q : ℚ) (s : String) (hd : IsDec q) :
    (parseObjectiveAIResponse (stringifyEnvelope q s) = .ok ⟨q, s⟩ ↔ (0 ≤ q ∧ q ≤ 1))
      ∧ (¬(0 ≤ q ∧ q ≤ 1) →
          parseObjectiveAIResponse (stringifyEnvelope q s)
            = .error notObjectiveAIResponseMsg) := by
  have hP := parseObjectiveAIResponse_envelope q s hd
  constructor
  · constructor
    · intro hok
      by_contra hcon
      rw [hP, if_neg hcon] at hok
      exact Except.noConfusion hok
    · intro hin
      rw [hP, if_pos hin]
  · intro hout
    rw [hP, if_neg hout]

/-- C9 witness: an envelope with confidence two and a string payload is
rejected. -/
theorem c9_confidence_range_witness :
    parseObjectiveAIResponse (stringifyEnvelope 2 ("x"))
      = .error notObjectiveAIResponseMsg :=
  (c9_confidence_range 2 ("x") (by decide)).2 (by decide)

/-- C10: the decoded message never exposes an empty tool-call bucket — each
of tool_calls and invalid_tool_calls is never an empty list, and is absent
exactly when the corresponding bucket of the winning choice's partitioned
tool calls is empty. -/
theorem c10_no_empty_buckets (completion : ChatCompletion) :
    (queryCompletionResponseToBaseMessage completion).tool_calls ≠ some []
      ∧ (queryCompletionResponseToBaseMessage completion).invalid_tool_calls ≠ some []
      ∧ ((queryCompletionResponseToBaseMessage completion).tool_calls = none ↔
          ∀ ch, completion.choices.head? = some ch →
            (partitionToolCalls (ch.message.tool_calls.getD [])).1 = [])
      ∧ ((queryCompletionResponseToBaseMessage completion).invalid_tool_calls = none ↔
          ∀ ch, completion.choices.head? = some ch →
            (partitionToolCalls (ch.message.tool_calls.getD [])).2 = []) := by
  rw [decode_tool_calls, decode_invalid_tool_calls]
  cases hch : completion.choices.head? with
  | none =>
    refine ⟨by simp, by simp, by simp, by simp⟩
  | some ch =>
    rw [show (match (some ch : Option Choice) with
        | some ch => chatCompletionResponseMessageToBaseMessageToolCalls ch.message
        | none => (none, none))
      = chatCompletionResponseMessageToBaseMessageToolCalls ch.message from rfl]
    rw [bucketsFst, bucketsSnd]
    refine ⟨?_, ?_, ?_, ?_⟩
    · by_cases hl : 0 < (partitionToolCalls (ch.message.tool_calls.getD [])).1.length
      · rw [if_pos hl]
        intro hcon
        rw [Option.some.injEq] at hcon
        rw [hcon] at hl
        simp at hl
      · rw [if_neg hl]
        exact Option.noConfusion
    · by_cases hl : 0 < (partitionToolCalls (ch.message.tool_calls.getD [])).2.length
      · rw [if_pos hl]
        intro hcon
        rw [Option.some.injEq] at hcon
        rw [hcon] at hl
        simp at hl
      · rw [if_neg hl]
        exact Option.noConfusion
    · by_cases hl : 0 < (partitionToolCalls (ch.message.tool_calls.getD [])).1.length
      · rw [if_pos hl]
        constructor
        · intro hcon
          exact Option.noConfusion hcon
        · intro hall
          have := hall ch rfl
          rw [this] at hl
          simp at hl
      · rw [if_neg hl]
        constructor
        · intro _ ch2 hch2
          rw [Option.some.injEq] at hch2
          subst hch2
          simpa using Nat.le_of_not_lt hl
        · intro _
          rfl
    · by_cases hl : 0 < (partitionToolCalls (ch.message.tool_calls.getD [])).2.length
      · rw [if_pos hl]
        constructor
        · intro hcon
          exact Option.noConfusion hcon
        · intro hall
          have := hall ch rfl
          rw [this] at hl
          simp at hl
      · rw [if_neg hl]
        constructor
        · intro _ ch2 hch2
          rw [Option.some.injEq] at hch2
          subst hch2
          simpa using Nat.le_of_not_lt hl
        · intro _
          rfl

/-! ## Encoder helper lemmas -/

theorem encode_human (c : MessageContent) (name : Option String) :
    baseMessageToChatCompletionRequestMessage (.human c name)
      = (baseMessageContentToUserContent c).map (fun x => .user x name) := rfl

theorem userContent_parts (ps : List ContentPart) :
    baseMessageContentToUserContent (.parts ps) = (encodeUserParts ps).map .parts := rfl

theorem simpleContent_parts (ps : List ContentPart) :
    baseMessageContentToSimpleContent (.parts ps) = (encodeSimpleParts ps).map .parts := rfl

theorem encodeUserParts_single (p : ContentPart) :
    encodeUserParts [p] = (encodeUserPart p).map (fun w => [w]) := by
  cases h : encodeUserPart p with
  | ok w =>
    simp only [encodeUserParts, h]
    rfl
  | error e =>
    simp only [encodeUserParts, h]
    rfl

theorem encode_ai (c : MessageContent) (name : Option String) (tcs : List LCToolCall) :
    baseMessageToChatCompletionRequestMessage (.ai c name tcs)
      = (baseMessageContentToSimpleContent c).bind
          (fun sc => (baseMessageToAssistantToolCalls (.ai c name tcs)).bind
            (fun otcs => .ok (.assistant sc name otcs))) := rfl

theorem encodeSimpleParts_all_text :
    ∀ ps : List ContentPart, (∀ p ∈ ps, p.isText = true) →
      encodeSimpleParts ps = .ok (textsOf ps)
  | [], _ => rfl
  | .text t :: rest, h => by
    have ih := encodeSimpleParts_all_text rest (fun q hq => h q (List.mem_cons_of_mem _ hq))
    simp only [encodeSimpleParts, textsOf, List.filterMap_cons, ih]
    rfl
  | .imageUrlStr u :: rest, h =>
    absurd (h _ (List.mem_cons_self _ _)) (by simp [ContentPart.isText])
  | .imageUrlObj u d :: rest, h =>
    absurd (h _ (List.mem_cons_self _ _)) (by simp [ContentPart.isText])
  | .sourceUrl k u :: rest, h =>
    absurd (h _ (List.mem_cons_self _ _)) (by simp [ContentPart.isText])
  | .sourceBase64 k d :: rest, h =>
    absurd (h _ (List.mem_cons_self _ _)) (by simp [ContentPart.isText])
  | .unrecognized :: rest, h =>
    absurd (h _ (List.mem_cons_self _ _)) (by simp [ContentPart.isText])

theorem encodeSimpleParts_nontext :
    ∀ ps : List ContentPart, (∃ p ∈ ps, ¬ p.isText = true) →
      encodeSimpleParts ps = .error .unsupportedNonHumanContentPart
  | [], h => absurd h (by simp)
  | .text t :: rest, h => by
    have hrest : ∃ p ∈ rest, ¬ p.isText = true := by
      rcases h with ⟨p, hp, hnp⟩
      rcases List.mem_cons.mp hp with he | hm
      · exact absurd (by rw [he]; rfl) hnp
      · exact ⟨p, hm, hnp⟩
    simp only [encodeSimpleParts, encodeSimpleParts_nontext rest hrest]
    rfl
  | .imageUrlStr u :: rest, h => by simp [encodeSimpleParts]
  | .imageUrlObj u d :: rest, h => by simp [encodeSimpleParts]
  | .sourceUrl k u :: rest, h => by simp [encodeSimpleParts]
  | .sourceBase64 k d :: rest, h => by simp [encodeSimpleParts]
  | .unrecognized :: rest, h => by simp [encodeSimpleParts]

/-- C5: for a base64 audio part whose data URL and MIME type both parse, the
encoder accepts exactly the lowercased subtypes mpeg/mp3 (as format mp3) and
wav/x-wav (as format wav), throws the unsupported-format error on every
other subtype, and a user-role message carrying such a part propagates the
part's success value or failure unchanged — never defaulting or dropping
the part. -/
theorem c5_audio_formats (data mime ty sub : String)
    (hurl : parseBase64DataUrl data = some mime)
    (hmime : parseMimeType mime = some (ty, sub)) :
    ((toLowerStr sub = "mpeg" ∨ toLowerStr sub = "mp3") →
        encodeAudioPart data = .ok (.inputAudio data .mp3))
      ∧ ((toLowerStr sub = "wav" ∨ toLowerStr sub = "x-wav") →
          encodeAudioPart data = .ok (.inputAudio data .wav))
      ∧ (¬(toLowerStr sub = "mpeg" ∨ toLowerStr sub = "mp3"
            ∨ toLowerStr sub = "wav" ∨ toLowerStr sub = "x-wav") →
          encodeAudioPart data
            = .error (.unsupportedAudioContentPart
                (.unsupportedAudioFormat (toLowerStr sub))))
      ∧ (∀ name fmt, encodeAudioPart data = .ok (.inputAudio data fmt) →
          baseMessageToChatCompletionRequestMessage
              (.human (.parts [.sourceBase64 .audio data]) name)
            = .ok (.user (.parts [.inputAudio data fmt]) name))
      ∧ (∀ name e, encodeAudioPart data = .error e →
          baseMessageToChatCompletionRequestMessage
              (.human (.parts [.sourceBase64 .audio data]) name)
            = .error e) := by
  have hE : encodeAudioPart data
      = (if toLowerStr sub = "mpeg" ∨ toLowerStr sub = "mp3" then
          .ok (.inputAudio data .mp3)
        else if toLowerStr sub = "wav" ∨ toLowerStr sub = "x-wav" then
          .ok (.inputAudio data .wav)
        else .error (.unsupportedAudioContentPart
            (.unsupportedAudioFormat (toLowerStr sub)))) := by
    simp only [encodeAudioPart, hurl, hmime]
  have hmsg : ∀ name : Option String,
      baseMessageToChatCompletionRequestMessage
          (.human (.parts [.sourceBase64 .audio data]) name)
        = (encodeAudioPart data).map (fun w => .user (.parts [w]) name) := by
    intro name
    rw [encode_human, userContent_parts, encodeUserParts_single,
      show encodeUserPart (ContentPart.sourceBase64 .audio data)
        = encodeAudioPart data from rfl]
    cases encodeAudioPart data <;> rfl
  refine ⟨?_, ?_, ?_, ?_, ?_⟩
  · intro h
    rw [hE, if_pos h]
  · rintro (h | h)
    · rw [hE, h]
      try rfl
    · rw [hE, h]
      try rfl
  · intro h
    rw [hE, if_neg (by tauto), if_neg (by tauto)]
  · intro name fmt hok
    rw [hmsg name, hok]
    rfl
  · intro name e he
    rw [hmsg name, he]
    rfl

/-- C5 witness: a base64 audio part with MIME subtype MPEG succeeds and
normalizes to format mp3, while subtype ogg fails with the
unsupported-format error. -/
theorem c5_audio_formats_witness :
    encodeAudioPart ("data:audio/MPEG;base64,xxxx")
        = .ok (.inputAudio ("data:audio/MPEG;base64,xxxx") .mp3)
      ∧ encodeAudioPart ("data:audio/ogg;base64,xxxx")
        = .error (.unsupportedAudioContentPart
            (.unsupportedAudioFormat ("ogg"))) := by
  constructor
  · exact (c5_audio_formats ("data:audio/MPEG;base64,xxxx") ("audio/MPEG") ("audio")
      ("MPEG") (by decide) (by decide)).1 (Or.inl (by decide))
  · have h := (c5_audio_formats ("data:audio/ogg;base64,xxxx") ("audio/ogg") ("audio")
      ("ogg") (by decide) (by decide)).2.2.1 (by decide)
    rw [h]
    rfl

/-- C7: the encoder resolves the effective role with getMessageTypeOrRole
(the literal type, or a generic message's custom role label) and maps
human/user to a user message, ai/assistant to an assistant message,
developer to developer, system to system, and tool — only on an actual tool
message, keeping its tool_call_id — to a tool message; every other resolved
role yields the unsupported-message error. -/
theorem c7_role_mapping (message : BaseMessage) :
    ((getMessageTypeOrRole message = "human" ∨ getMessageTypeOrRole message = "user") →
        baseMessageToChatCompletionRequestMessage message
          = (baseMessageContentToUserContent message.contentOf).map
              (fun c => .user c message.nameOf))
      ∧ ((getMessageTypeOrRole message = "ai" ∨ getMessageTypeOrRole message = "assistant") →
          baseMessageToChatCompletionRequestMessage message
            = (baseMessageContentToSimpleContent message.contentOf).bind
                (fun c => (baseMessageToAssistantToolCalls message).bind
                  (fun tcs => .ok (.assistant c message.nameOf tcs))))
      ∧ (getMessageTypeOrRole message = "developer" →
          baseMessageToChatCompletionRequestMessage message
            = (baseMessageContentToSimpleContent message.contentOf).map
                (fun c => .developer c message.nameOf))
      ∧ (getMessageTypeOrRole message = "system" →
          baseMessageToChatCompletionRequestMessage message
            = (baseMessageContentToSimpleContent message.contentOf).map
                (fun c => .system c message.nameOf))
      ∧ (getMessageTypeOrRole message = "tool" →
          (∀ content id, message = .tool content id →
              baseMessageToChatCompletionRequestMessage message
                = (baseMessageContentToSimpleContent content).map (fun c => .tool c id))
            ∧ ((∀ content id, ¬ message = .tool content id) →
                baseMessageToChatCompletionRequestMessage message
                  = .error .unsupportedMessage))
      ∧ (¬(getMessageTypeOrRole message = "human" ∨ getMessageTypeOrRole message = "user"
            ∨ getMessageTypeOrRole message = "ai"
            ∨ getMessageTypeOrRole message = "assistant"
            ∨ getMessageTypeOrRole message = "developer"
            ∨ getMessageTypeOrRole message = "system"
            ∨ getMessageTypeOrRole message = "tool") →
          baseMessageToChatCompletionRequestMessage message
            = .error .unsupportedMessage) := by
  have hdef : baseMessageToChatCompletionRequestMessage message
      = (if getMessageTypeOrRole message = "human"
            ∨ getMessageTypeOrRole message = "user" then
          (baseMessageContentToUserContent message.contentOf).map
            (fun c => .user c message.nameOf)
        else if getMessageTypeOrRole message = "ai"
            ∨ getMessageTypeOrRole message = "assistant" then
          (baseMessageContentToSimpleContent message.contentOf).bind
            (fun c => (baseMessageToAssistantToolCalls message).bind
              (fun tcs => .ok (.assistant c message.nameOf tcs)))
        else if getMessageTypeOrRole message = "developer" then
          (baseMessageContentToSimpleContent message.contentOf).map
            (fun c => .developer c message.nameOf)
        else if getMessageTypeOrRole message = "system" then
          (baseMessageContentToSimpleContent message.contentOf).map
            (fun c => .system c message.nameOf)
        else if getMessageTypeOrRole message = "tool" then
          match message with
          | .tool content id =>
            (baseMessageContentToSimpleContent content).map (fun c => .tool c id)
          | _ => .error .unsupportedMessage
        else .error .unsupportedMessage) := rfl
  refine ⟨?_, ?_, ?_, ?_, ?_, ?_⟩
  · intro h
    rw [hdef, if_pos h]
  · rintro (h | h)
    · rw [hdef, h]
      try rfl
    · rw [hdef, h]
      try rfl
  · intro h
    rw [hdef, h]
    try rfl
  · intro h
    rw [hdef, h]
    try rfl
  · intro h
    constructor
    · intro content id hm
      subst hm
      rfl
    · intro hnot
      rw [hdef, h]
      cases message with
      | tool content id => exact absurd rfl (hnot content id)
      | human c n => rfl
      | ai c n tcs => rfl
      | system c n => rfl
      | generic r c n => rfl
  · intro hno
    rw [hdef, if_neg (by tauto), if_neg (by tauto), if_neg (by tauto),
      if_neg (by tauto), if_neg (by tauto)]

/-- C7 witness: a generic message with custom role `moderator` fails with
the unsupported-message error, and a generic message with custom role
`assistant` encodes as an assistant message. -/
theorem c7_role_mapping_witness :
    baseMessageToChatCompletionRequestMessage
        (.generic ("moderator") (.str ("x")) none)
      = .error .unsupportedMessage
    ∧ baseMessageToChatCompletionRequestMessage
        (.generic ("assistant") (.str ("ok")) none)
      = .ok (.assistant (.str ("ok")) none none) := by
  constructor
  · exact (c7_role_mapping (.generic ("moderator") (.str ("x")) none)).2.2.2.2.2
      (by decide)
  · have h := (c7_role_mapping (.generic ("assistant") (.str ("ok")) none)).2.1
      (Or.inr (by decide))
    rw [h]
    rfl

/-- C8 counterexample: an assistant message whose parts are all text parts
still fails to encode when it carries a tool call without a string id — so
all-text parts do not suffice for encoding success on assistant messages. -/
theorem c8_nonhuman_text_counterexample :
    (∀ p ∈ [ContentPart.text ("x")], p.isText = true)
      ∧ baseMessageToChatCompletionRequestMessage
          (.ai (.parts [.text ("x")]) none [⟨"f", [], none⟩])
        = .error .unsupportedToolCall :=
  ⟨by decide, by rfl⟩

/-- C8 amended: simple (non-human) part-list content encodes successfully
exactly when every part is a text part — the texts passing through
unchanged, any non-text part raising the unsupported-content error — and
this content encoding is what system, developer (via a generic role label),
tool, and assistant messages without tool calls lift: the full message
succeeds or fails with its content. -/
theorem c8_nonhuman_text_amended (ps : List ContentPart) :
    ((∀ p ∈ ps, p.isText = true) →
        baseMessageContentToSimpleContent (.parts ps) = .ok (.parts (textsOf ps)))
      ∧ ((∃ p ∈ ps, ¬ p.isText = true) →
          baseMessageContentToSimpleContent (.parts ps)
            = .error .unsupportedNonHumanContentPart)
      ∧ (∀ name, baseMessageToChatCompletionRequestMessage (.system (.parts ps) name)
          = (baseMessageContentToSimpleContent (.parts ps)).map
              (fun c => .system c name))
      ∧ (∀ name, baseMessageToChatCompletionRequestMessage
            (.generic ("developer") (.parts ps) name)
          = (baseMessageContentToSimpleContent (.parts ps)).map
              (fun c => .developer c name))
      ∧ (∀ id, baseMessageToChatCompletionRequestMessage (.tool (.parts ps) id)
          = (baseMessageContentToSimpleContent (.parts ps)).map
              (fun c => .tool c id))
      ∧ (∀ name, baseMessageToChatCompletionRequestMessage (.ai (.parts ps) name [])
          = (baseMessageContentToSimpleContent (.parts ps)).map
              (fun c => .assistant c name none)) := by
  refine ⟨?_, ?_, ?_, ?_, ?_, ?_⟩
  · intro h
    rw [simpleContent_parts, encodeSimpleParts_all_text ps h]
    rfl
  · intro h
    rw [simpleContent_parts, encodeSimpleParts_nontext ps h]
    rfl
  · intro name
    rfl
  · intro name
    rfl
  · intro id
    rfl
  · intro name
    rw [encode_ai]
    cases hc : baseMessageContentToSimpleContent (.parts ps) <;> rfl

/-- C8 witness: an all-text part list passes through as its texts, while a
part list containing an image part fails with the unsupported-content
error. -/
theorem c8_nonhuman_text_amended_witness :
    baseMessageContentToSimpleContent (.parts [.text ("a"), .text ("b")])
        = .ok (.parts ["a", "b"])
      ∧ baseMessageContentToSimpleContent (.parts [.text ("a"), .imageUrlStr ("u")])
        = .error .unsupportedNonHumanContentPart := by
  constructor
  · have h := (c8_nonhuman_text_amended [.text ("a"), .text ("b")]).1 (by decide)
    rw [h]
    rfl
  · exact (c8_nonhuman_text_amended [.text ("a"), .imageUrlStr ("u")]).2.1 (by decide)
